import Mathlib

/-!
Verification development for the `vasp-poscar` crate: a reader/writer for the
POSCAR crystallography structure-file format.

The development shallowly embeds the parts of the crate relevant to the claims:

* `src/parse.rs`: the line/word scanner (`Spanned::words`, `control_char`),
  the primitive parsers (`Logical`, `Unsigned`), and the grammar walk
  `_from_reader` (embedded here as `fromLines`).
* `src/types.rs`: the data model (`RawPoscar`, `ScaleLine`, `Coords`),
  `RawPoscar::validate`, and the accessors `num_sites` / `site_symbols`.
* `src/write.rs`: the `Display` impl (embedded here as `displayLines`),
  restricted to the default round-trip (`Dtoa`) float style.

Modelling conventions:

* Rust `String` / `&str` values are embedded as `List Char`; a text line is a
  `List Char` with the terminator stripped, exactly as produced by
  `BufRead::lines`.
* Rust `f64` is embedded as `F64`: either NaN or an exact rational.  IEEE
  comparison semantics (NaN unordered with everything) is modelled faithfully
  in `F64.cmpZero`; infinities are outside the model (no claim involves them,
  and no finite-float computation in the modelled code can produce one).
* The numeric primitives from outside the repository (std `FromStr` for `f64`
  and the `dtoa` crate used by the writer) are modelled from the spec; see
  `parseF64` and `printF64`.
* Error positions (path / line / column provenance) are not tracked; the
  claims under study depend only on error kinds, embedded as `PErr` and
  `ValidationError` variants.
-/

deriving instance DecidableEq for Except

namespace VaspPoscar

/-- Embedding of `parse.rs::is_ascii_whitespace`: the characters the scanner
treats as word separators are space, tab, carriage return and line feed. -/
def is_ascii_whitespace (b : Char) : Bool :=
  match b with
  | ' ' => true
  | '\t' => true
  | '\r' => true
  | '\n' => true
  | _ => false

mutual

/-- Helper for the state machine of `Spanned::words`: we are inside a word that
started at column `start` with reversed content `accRev`; `i` is the current
column.  Mirrors the inner loop of `Spanned::words`, which scans forward until
the next whitespace character and then emits the slice. -/
def wordsInWord (start : Nat) (accRev : List Char) (i : Nat) :
    List Char → List (Nat × List Char)
  | [] => [(start, accRev.reverse)]
  | c :: cs =>
    if is_ascii_whitespace c then
      (start, accRev.reverse) :: wordsBetween (i + 1) cs
    else
      wordsInWord start (c :: accRev) (i + 1) cs

/-- Helper for the state machine of `Spanned::words`: we are between words at
column `i`.  Mirrors the outer loop of `Spanned::words`, which looks for a
whitespace→non-whitespace boundary to start the next word. -/
def wordsBetween (i : Nat) : List Char → List (Nat × List Char)
  | [] => []
  | c :: cs =>
    if is_ascii_whitespace c then wordsBetween (i + 1) cs
    else wordsInWord i [c] (i + 1) cs

end

/-- Embedding of `Spanned::words` (`parse.rs`): tokenize a line into spanned
words.  The Rust code zips the byte stream with itself shifted by one
(padding with a space at both ends), starts a word at every
whitespace→non-whitespace boundary, and extends it to the next whitespace
character; each emitted word carries the column offset of its first character.
The mutual state machine above is the functional rendering of that scan. -/
def words (cs : List Char) : List (Nat × List Char) :=
  wordsBetween 0 cs

/-- Content of the words of a line, without the column offsets (the grammar
walk in `_from_reader` consumes only the text of each word; the offsets feed
error messages, which are not tracked in this embedding). -/
def wordsContent (cs : List Char) : List (List Char) :=
  (words cs).map (fun p => p.2)

/-- Embedding of `Spanned::control_char` (`parse.rs`): the first character of
the line verbatim (not trimmed), or `none` for an empty line. -/
def control_char (cs : List Char) : Option Char :=
  cs.head?

/-- Reference characterisation of tokenization, written independently of the
scan in `Spanned::words`: a column `i` starts a word when the character there
is not whitespace and the preceding character (if any) is. -/
def isWordStart (cs : List Char) (i : Nat) : Bool :=
  match cs.get? i with
  | none => false
  | some c =>
    !is_ascii_whitespace c &&
      (decide (i = 0) ||
        match cs.get? (i - 1) with
        | none => true
        | some p => is_ascii_whitespace p)

/-- Reference characterisation of tokenization: the maximal run of
non-whitespace characters beginning at column `i`. -/
def runAt (cs : List Char) (i : Nat) : List Char :=
  (cs.drop i).takeWhile (fun c => !is_ascii_whitespace c)

/-- Reference tokenizer: the maximal runs of non-whitespace characters, in
order, each carrying the column offset of its first character.  This is the
claimed specification of `Spanned::words`, computed by a different method
(a global scan over all columns rather than a left-to-right state machine). -/
def wordsSpec (cs : List Char) : List (Nat × List Char) :=
  ((List.range cs.length).filter (isWordStart cs)).map (fun i => (i, runAt cs i))

-- --------------------------------------------------------------------------
-- The float model.

/-- Model of Rust `f64` for this development: NaN, or an exact rational.
IEEE comparison semantics is modelled by `F64.cmpZero`; infinities are
outside the model (no claim under study involves them). -/
inductive F64 where
  | nan : F64
  | fin (q : ℚ) : F64
deriving DecidableEq, Repr

/-- Model of `f64::partial_cmp(&0.0)` as used on the scale line in
`_from_reader`: NaN is unordered (`none`), finite values compare exactly. -/
def F64.cmpZero : F64 → Option Ordering
  | .nan => none
  | .fin q => some (compare q 0)

/-- Model of `f64` negation (`-value` on the scale line). -/
def F64.neg : F64 → F64
  | .nan => .nan
  | .fin q => .fin (-q)

/-- Model of the Rust comparison `x > 0.0` used by `RawPoscar::validate`:
false for NaN (unordered), exact for finite values. -/
def F64.gtZero : F64 → Bool
  | .nan => false
  | .fin q => decide (0 < q)

/-- Model of the IEEE comparison `x <= 0.0`: false for NaN (unordered),
exact for finite values. -/
def F64.leZero : F64 → Bool
  | .nan => false
  | .fin q => decide (q ≤ 0)

-- --------------------------------------------------------------------------
-- The data model (`types.rs`).

/-- Embedding of `ScaleLine` (`types.rs`): the second line of a POSCAR file,
either a scale factor or a target cell volume. -/
inductive ScaleLine where
  | Factor (x : F64) : ScaleLine
  | Volume (x : F64) : ScaleLine
deriving DecidableEq, Repr

/-- Numeric payload inside `Factor(x)` or `Volume(x)` (the value the match in
`RawPoscar::validate` binds as `x`). -/
def ScaleLine.payload : ScaleLine → F64
  | .Factor x => x
  | .Volume x => x

/-- Embedding of `Coords<T>` (`types.rs`): data in cartesian or direct
(fractional) units. -/
inductive Coords (T : Type) where
  | Cart (x : T) : Coords T
  | Frac (x : T) : Coords T
deriving DecidableEq, Repr

/-- Embedding of `Coords::raw`: drop the tag. -/
def Coords.rawData {T : Type} : Coords T → T
  | .Cart x => x
  | .Frac x => x

/-- Rust `[f64; 3]` (a position, velocity, or lattice row). -/
def V3 : Type := F64 × F64 × F64
deriving DecidableEq, Repr

/-- Rust `[bool; 3]` (the selective-dynamics flags of one atom). -/
def B3 : Type := Bool × Bool × Bool
deriving DecidableEq, Repr

/-- Embedding of `RawPoscar` (`types.rs`): the unvalidated structure with
public data members.  (`_cant_touch_this`, a zero-sized private field that
merely prevents literal construction in Rust, is dropped.) -/
structure RawPoscar where
  comment : List Char
  scale : ScaleLine
  lattice_vectors : V3 × V3 × V3
  group_symbols : Option (List (List Char))
  group_counts : List Nat
  positions : Coords (List V3)
  velocities : Option (Coords (List V3))
  dynamics : Option (List B3)
deriving DecidableEq, Repr

/-- Embedding of `Poscar` (`types.rs`): a `RawPoscar` known to satisfy the
validation invariants.  In Rust the wrapper is constructible only through
`RawPoscar::validate`; the theorems below therefore quantify over
`validate r = .ok p` rather than relying on type-level privacy. -/
structure Poscar where
  raw : RawPoscar
deriving DecidableEq, Repr

/-- Embedding of `ValidationError` (`types.rs`).  The `WrongLength` payloads
are the Rust `&'static str` field name and the expected length.  (The two
unused variants `PredictorCorrectorInitIsZero` and `AndManyMooooooooore` are
unreachable from `validate` and are omitted.) -/
inductive ValidationError where
  | NewlineInComment : ValidationError
  | InvalidSymbol (sym : Option (List Char)) : ValidationError
  | NoAtoms : ValidationError
  | BadScaleLine : ValidationError
  | InconsistentNumGroups : ValidationError
  | WrongLength (field : List Char) (expected : Nat) : ValidationError
deriving DecidableEq, Repr

-- --------------------------------------------------------------------------
-- Validation (`RawPoscar::validate`, `types.rs`).

/-- Modelled from the spec: `parse::is_valid_symbol_for_symbol_line`, which is
referenced by `RawPoscar::validate` but absent from the source snapshot (only
its caller is present).  Per §4.4 step 5 of the spec, a symbol is well-formed
when it is non-empty, contains no whitespace, and has no leading digit. -/
def is_valid_symbol_for_symbol_line (sym : List Char) : Bool :=
  match sym with
  | [] => false
  | c :: _ =>
    !c.isDigit && sym.all (fun x => !is_ascii_whitespace x)

/-- First symbol in the list violating `is_valid_symbol_for_symbol_line`, if
any (the `for sym in group_symbols` loop in `validate` reports the first
offender). -/
def firstInvalidSymbol : List (List Char) → Option (List Char)
  | [] => none
  | s :: rest =>
    if is_valid_symbol_for_symbol_line s then firstInvalidSymbol rest
    else some s

/-- Join strings with single spaces: the Rust `join(" ")` in `validate` and
the `write_sep(w, " ", ..)` loop in the writer (first element, then a space
before each further element). -/
def sepBySpace : List (List Char) → List Char
  | [] => []
  | [t] => t
  | t :: ts => t ++ ' ' :: sepBySpace ts

/-- Embedding of the defense-in-depth retokenization check in `validate`:
join the symbols with single spaces (`group_symbols.join(" ")`, modelled with
`Spanned::wrap_arbitrary`, which merely wraps a string with a dummy span) and
check that `Spanned::words` reproduces exactly the original sequence. -/
def symbolsRetokenize (syms : List (List Char)) : Bool :=
  wordsContent (sepBySpace syms) == syms

/-- Continuation of `validate`: the `dynamics` length check and success. -/
def validateDynamics (r : RawPoscar) (n : Nat) : Except ValidationError Poscar :=
  match r.dynamics with
  | some d =>
    if d.length ≠ n then .error (.WrongLength "dynamics".data n)
    else .ok ⟨r⟩
  | none => .ok ⟨r⟩

/-- Continuation of `validate`: the three length checks and the final
wrapping `Ok(Poscar(self))`. -/
def validateLengths (r : RawPoscar) (n : Nat) : Except ValidationError Poscar :=
  if r.positions.rawData.length ≠ n then
    .error (.WrongLength "positions".data n)
  else
    match r.velocities with
    | some v =>
      if v.rawData.length ≠ n then .error (.WrongLength "velocities".data n)
      else validateDynamics r n
    | none => validateDynamics r n

/-- Continuation of `validate` after the `group_symbols` length check. -/
def validateAfterGroups (r : RawPoscar) : Except ValidationError Poscar :=
  if r.comment.contains '\n' then .error .NewlineInComment
  else if r.comment.contains '\r' then .error .NewlineInComment
  else if !(r.scale.payload.gtZero) then .error .BadScaleLine
  else
    let n := r.group_counts.sum
    if !(decide (0 < n)) then .error .NoAtoms
    else
      match r.group_symbols with
      | some syms =>
        match firstInvalidSymbol syms with
        | some s => .error (.InvalidSymbol (some s))
        | none =>
          if !(symbolsRetokenize syms) then .error (.InvalidSymbol none)
          else validateLengths r n
      | none => validateLengths r n

/-- Embedding of `RawPoscar::validate` (`types.rs`): sequential fail-fast
checks, returning the first violated invariant or wrapping the raw structure
into a `Poscar`. -/
def validate (r : RawPoscar) : Except ValidationError Poscar :=
  match r.group_symbols with
  | some syms =>
    if r.group_counts.length ≠ syms.length then
      .error .InconsistentNumGroups
    else validateAfterGroups r
  | none => validateAfterGroups r

-- --------------------------------------------------------------------------
-- Numeric token primitives.
--
-- The decimal digit plumbing below backs both the writer (formatting counts
-- and floats) and the parser primitives (`Unsigned`, `f64`).

/-- Decimal digit character for a value `d < 10`. -/
def digitChar (d : Nat) : Char :=
  Char.ofNat (48 + d)

/-- Decimal digits of `n`, least significant first, with explicit fuel so the
definition is structural (and hence kernel-reducible for concrete inputs). -/
def natDigitsRevF : Nat → Nat → List Char
  | 0, _ => []
  | fuel + 1, n =>
    if n < 10 then [digitChar n]
    else digitChar (n % 10) :: natDigitsRevF fuel (n / 10)

/-- Decimal numeral of a natural number (the output of Rust `Display` for the
unsigned integers in a POSCAR file: group counts). -/
def natRepr (n : Nat) : List Char :=
  (natDigitsRevF (n + 1) n).reverse

/-- Numeric value of a string of decimal digit characters. -/
def ofDigits (l : List Char) : Nat :=
  l.foldl (fun a c => a * 10 + (c.toNat - 48)) 0

/-- Decimal numeral of an integer (minus sign followed by the magnitude). -/
def intRepr (m : ℤ) : List Char :=
  if m < 0 then '-' :: natRepr m.natAbs else natRepr m.natAbs

/-- Embedding of the `Unsigned` primitive (`parse.rs`): parses like `u64` but
forbids the leading `+`.  A `u64` numeral is a non-empty, all-digit string.
(Values ≥ 2^64 would overflow in Rust; the model is unbounded, which cannot
be observed through numerals the writer itself produces for `usize` counts.) -/
def parseUnsignedTok (t : List Char) : Option Nat :=
  match t with
  | [] => none
  | c :: _ =>
    if c = '+' then none
    else if t.all Char.isDigit then some (ofDigits t)
    else none

/-- Embedding of the `Logical` primitive (`parse.rs`): an optional leading
dot, then a single case-insensitive `t` or `f`; the rest is ignored. -/
def parseLogical (t : List Char) : Option Bool :=
  let s := match t with
    | '.' :: r => r
    | r => r
  match s with
  | c :: _ =>
    if c = 't' ∨ c = 'T' then some true
    else if c = 'f' ∨ c = 'F' then some false
    else none
  | [] => none

/-- Exponent suffix of a real token: either nothing, or `e`/`E`, an optional
sign, and a non-empty run of digits consuming the rest of the token. -/
def parseExpPart (cs : List Char) : Option ℤ :=
  match cs with
  | [] => some 0
  | e :: r =>
    if e = 'e' ∨ e = 'E' then
      let p : Bool × List Char := match r with
        | '-' :: d => (true, d)
        | '+' :: d => (false, d)
        | d => (false, d)
      if p.2 ≠ [] ∧ p.2.all Char.isDigit then
        some (if p.1 then -(ofDigits p.2 : ℤ) else (ofDigits p.2 : ℤ))
      else none
    else none

/-- Value denoted by a parsed real token: sign, integer digits, fraction
digits, decimal exponent. -/
def mkF64 (neg : Bool) (intDs fracDs : List Char) (e : ℤ) : F64 :=
  let m : ℕ := ofDigits (intDs ++ fracDs)
  let sm : ℤ := if neg then -(m : ℤ) else (m : ℤ)
  let E : ℤ := e - fracDs.length
  .fin (if 0 ≤ E then mkRat (sm * (10 : ℤ) ^ E.toNat) 1
        else mkRat sm (10 ^ (-E).toNat))

/-- Case-insensitive `nan` token. -/
def isNanToken (cs : List Char) : Bool :=
  match cs with
  | [c0, c1, c2] =>
    (c0 == 'n' || c0 == 'N') && (c1 == 'a' || c1 == 'A') &&
      (c2 == 'n' || c2 == 'N')
  | _ => false

/-- Body of the real-number primitive parser, after the optional sign has
been stripped: either a case-insensitive `nan`, or digits with an optional
fraction part and an optional exponent, consuming the whole token. -/
def parseF64Sign (neg : Bool) (r : List Char) : Option F64 :=
  if isNanToken r then some .nan
  else
    let intDs := r.takeWhile Char.isDigit
    let rest := r.drop intDs.length
    match rest with
    | '.' :: r2 =>
      let fracDs := r2.takeWhile Char.isDigit
      let rest2 := r2.drop fracDs.length
      if intDs = [] ∧ fracDs = [] then none
      else
        match parseExpPart rest2 with
        | some e => some (mkF64 neg intDs fracDs e)
        | none => none
    | _ =>
      if intDs = [] then none
      else
        match parseExpPart rest with
        | some e => some (mkF64 neg intDs [] e)
        | none => none

/-- Modelled from the spec: the real-number primitive parser (§4.2), realised
in Rust by `f64::from_str` from the standard library (outside this
repository).  Standard decimal/exponential syntax: an optional sign, then
either a case-insensitive `nan`, or digits with an optional fraction part and
an optional exponent.  The value is exact in ℚ (the model has no rounding);
`inf`/`infinity` tokens are outside the model and fail to parse here. -/
def parseF64 (w : List Char) : Option F64 :=
  match w with
  | [] => none
  | '-' :: r => parseF64Sign true r
  | '+' :: r => parseF64Sign false r
  | r => parseF64Sign false r

/-- Domain of the float model on which exact decimal printing is possible: the
denominator divides a power of ten (equivalently, it has only 2 and 5 as prime
factors).  Every IEEE-754 double is a dyadic rational and hence satisfies
this; rationals outside this set do not denote doubles. -/
def repOK (q : ℚ) : Bool :=
  10 ^ q.den % q.den == 0

/-- Lift of `repOK` to the float model (`NaN` prints as a token too). -/
def F64.repOK : F64 → Bool
  | .nan => true
  | .fin q => VaspPoscar.repOK q

/-- Modelled from the spec: the default round-trip float style (§4.6),
realised in Rust by the external `dtoa` crate — "the shortest decimal
representation that reparses to the identical floating-point value".  The
model prints any `repOK` rational as an exact decimal token (`m`, or
`m·10^(-den)` written `m e-den`); the exact shape of the token differs from
`dtoa`'s shortest form, but the properties the grammar relies on are the
same: a single whitespace-free token that reparses to the identical value,
with a leading digit once the sign is stripped. -/
def printF64 : F64 → List Char
  | .nan => "NaN".data
  | .fin q =>
    if q.den = 1 then intRepr q.num
    else intRepr (q.num * ((10 ^ q.den) / q.den : ℕ)) ++ 'e' :: '-' :: natRepr q.den

/-- All three components of a vector are in the printable model domain. -/
def V3.repOK (v : V3) : Bool :=
  v.1.repOK && v.2.1.repOK && v.2.2.repOK

/-- Every float stored in the structure is in the printable model domain
(true of every structure denoting actual `f64` data). -/
def RawPoscar.floatsRepresentable (r : RawPoscar) : Bool :=
  r.scale.payload.repOK &&
  (r.lattice_vectors.1.repOK && r.lattice_vectors.2.1.repOK &&
    r.lattice_vectors.2.2.repOK) &&
  r.positions.rawData.all V3.repOK &&
  (match r.velocities with
   | some v => v.rawData.all V3.repOK
   | none => true)

-- --------------------------------------------------------------------------
-- The writer (`write.rs`, default `Dtoa` float style only — the style used
-- when no width/precision/sign/alternate flag is given).

/-- Rust `format!("{:>2}", s)`: right-align in a field of width 2 (pad on the
left with spaces), used for both symbols and counts. -/
def pad2 (s : List Char) : List Char :=
  if s.length < 2 then List.replicate (2 - s.length) ' ' ++ s else s

/-- Embedding of `FloatStyle::write_v3`: three floats separated by single
spaces. -/
def v3Tokens (v : V3) : List Char :=
  printF64 v.1 ++ ' ' :: printF64 v.2.1 ++ ' ' :: printF64 v.2.2

/-- The closure `|b| match b { true => 'T', false => 'F' }` in `display`. -/
def logChar (b : Bool) : Char :=
  if b then 'T' else 'F'

/-- Embedding of `By3(dynamics[i], fmt)`: three flag characters separated by
single spaces (the `"{} {} {}"` format). -/
def flagTokens (d : B3) : List Char :=
  [logChar d.1, ' ', logChar d.2.1, ' ', logChar d.2.2]

/-- One atom line of the positions block: two leading spaces, the three
coordinates, and — when selective dynamics data is present — a space and the
three `T`/`F` flags. -/
def atomLine (pos : V3) (dyn : Option B3) : List Char :=
  ' ' :: ' ' :: v3Tokens pos ++
    (match dyn with
     | some d => ' ' :: flagTokens d
     | none => [])

/-- The scale line: two leading spaces, then the factor, or a minus sign and
the volume. -/
def scaleLineChars (s : ScaleLine) : List Char :=
  ' ' :: ' ' :: (match s with
    | .Factor x => printF64 x
    | .Volume x => '-' :: printF64 x)

/-- One lattice-vector line: four leading spaces and the three components. -/
def latticeLineChars (row : V3) : List Char :=
  ' ' :: ' ' :: ' ' :: ' ' :: v3Tokens row

/-- The symbols line: two leading spaces, the symbols padded to width 2 and
joined by single spaces (`write_sep`). -/
def symbolsLineChars (syms : List (List Char)) : List Char :=
  ' ' :: ' ' :: sepBySpace (syms.map pad2)

/-- The counts line, in the same style as the symbols line. -/
def countsLineChars (counts : List Nat) : List Char :=
  ' ' :: ' ' :: sepBySpace (counts.map (fun c => pad2 (natRepr c)))

/-- The position block lines.  The Rust loop walks `positions` by index and
reads `dynamics[i]` alongside; for the validated structures the writer
accepts, both lists have the same length, where indexing coincides with
zipping (on shorter `dynamics` the Rust code would panic on the index). -/
def atomLines (ps : List V3) (dyn : Option (List B3)) : List (List Char) :=
  match dyn with
  | none => ps.map (fun v => atomLine v none)
  | some ds => (ps.zip ds).map (fun pd => atomLine pd.1 (some pd.2))

/-- The velocity block: a `Cartesian` header or — as conventionally emitted
for fractional velocities — a blank line, then one coordinate line per atom. -/
def velocityLines (v : Coords (List V3)) : List (List Char) :=
  (match v with
   | .Cart _ => ["Cartesian".data]
   | .Frac _ => [([] : List Char)]) ++
  v.rawData.map (fun x => ' ' :: ' ' :: v3Tokens x)

/-- Embedding of `write::display` (`write.rs`) at the granularity of lines:
every `writeln!` boundary becomes one list element. -/
def displayLines (p : Poscar) : List (List Char) :=
  let r := p.raw
  [r.comment, scaleLineChars r.scale,
   latticeLineChars r.lattice_vectors.1,
   latticeLineChars r.lattice_vectors.2.1,
   latticeLineChars r.lattice_vectors.2.2] ++
  (match r.group_symbols with
   | some syms => [symbolsLineChars syms]
   | none => []) ++
  [countsLineChars r.group_counts] ++
  (match r.dynamics with
   | some _ => ["Selective Dynamics".data]
   | none => []) ++
  [match r.positions with
   | .Cart _ => "Cartesian".data
   | .Frac _ => "Direct".data] ++
  atomLines r.positions.rawData r.dynamics ++
  (match r.velocities with
   | some v => velocityLines v
   | none => [])

/-- The two `assert!` statements guarding `write::display`: the comment must
contain no line break and `group_counts` must be non-empty. -/
def displayAsserts (p : Poscar) : Bool :=
  !p.raw.comment.contains '\n' && !p.raw.comment.contains '\r' &&
    !p.raw.group_counts.isEmpty

/-- Text of the displayed file: each line followed by a line feed, exactly as
the `writeln!` calls produce it. -/
def joinLines (ls : List (List Char)) : List Char :=
  (ls.map (fun l => l ++ ['\n'])).flatten

/-- Full output of `Display for Poscar` in the default round-trip style. -/
def displayText (p : Poscar) : List Char :=
  joinLines (displayLines p)

-- --------------------------------------------------------------------------
-- Reading text back into lines (`BufRead::lines`).

/-- Rust `BufRead::lines` strips the terminating line feed of each line and a
carriage return immediately preceding it. -/
def stripCR (l : List Char) : List Char :=
  match l.getLast? with
  | some '\r' => l.dropLast
  | _ => l

/-- Split a character stream at every line feed. -/
def splitNL : List Char → List (List Char)
  | [] => [[]]
  | c :: cs =>
    if c = '\n' then [] :: splitNL cs
    else
      match splitNL cs with
      | l :: rest => (c :: l) :: rest
      | [] => [[c]]

/-- The sequence of lines `BufRead::lines` yields for a character stream: the
final fragment is kept only when non-empty (a terminating line feed does not
open a last empty line), and each line loses a trailing carriage return. -/
def linesOf (cs : List Char) : List (List Char) :=
  let parts := splitNL cs
  (match parts.getLast? with
   | some [] => parts.dropLast
   | _ => parts).map stripCR

-- --------------------------------------------------------------------------
-- The grammar walk (`_from_reader`, `parse.rs`).

/-- Error kinds raised by the grammar walk.  Positions (path/line/column) are
not tracked; each variant corresponds to one error message or primitive
failure in `parse.rs`. -/
inductive PErr where
  /-- The line source ran dry (`"unexpected end of file"`). -/
  | unexpectedEof : PErr
  /-- No word on the scale line (`"expected scale"`). -/
  | expectedScale : PErr
  /-- A word failed to parse as a real (`ParseFloat`, §7 `InvalidNumber`). -/
  | invalidNumber : PErr
  /-- Scale value compared equal to zero (`"scale cannot be zero"`). -/
  | scaleCannotBeZero : PErr
  /-- Scale value unordered with zero (`"scale cannot be nan"`). -/
  | scaleCannotBeNan : PErr
  /-- A second real on the scale line (`"too many floats on scale line"`). -/
  | tooManyScaleValues : PErr
  /-- Missing lattice component (`"expected three components..."`). -/
  | expectedLatticeComponent : PErr
  /-- Blank symbols/counts line (`"expected at least one element or count"`). -/
  | expectedElementOrCount : PErr
  /-- Symbols/counts length mismatch (`"Inconsistent number of counts"`). -/
  | inconsistentGroupCount : PErr
  /-- Zero total atoms (`"There must be at least one atom."`). -/
  | noAtoms : PErr
  /-- Missing coordinate word (`"expected 3 coordinates"`). -/
  | expectedCoordinate : PErr
  /-- Missing dynamics flag word (`"expected 3 boolean flags"`). -/
  | expectedFlag : PErr
  /-- A word failed to parse as a Fortran logical (§7 `InvalidLogical`). -/
  | invalidLogical : PErr
  /-- Non-blank line after the recognized sections (`"expected EOF"`). -/
  | unexpectedTrailingContent : PErr
  /-- The `.expect(...)` at the end of `_from_reader`: the parsed structure
  failed validation, a panic in Rust ("this is a bug!"). -/
  | internalValidationBug : PErr
deriving DecidableEq, Repr

/-- Embedding of `Lines::next`: pop the next line or fail. -/
def nextLine (ls : List (List Char)) :
    Except PErr (List Char × List (List Char)) :=
  match ls with
  | [] => .error .unexpectedEof
  | l :: rest => .ok (l, rest)

/-- Embedding of `Words::next_or_err`: pop the next word or fail with the
given error. -/
def nextWordOr (ws : List (List Char)) (e : PErr) :
    Except PErr (List Char × List (List Char)) :=
  match ws with
  | [] => .error e
  | w :: rest => .ok (w, rest)

/-- Embedding of `word.parse::<f64>()` with the span-wrapped error. -/
def parseRealWord (w : List Char) : Except PErr F64 :=
  match parseF64 w with
  | some v => .ok v
  | none => .error .invalidNumber

/-- Embedding of `word.parse::<Logical>()` with the span-wrapped error. -/
def parseLogicalWord (w : List Char) : Except PErr Bool :=
  match parseLogical w with
  | some b => .ok b
  | none => .error .invalidLogical

/-- Embedding of the scale-line section of `_from_reader`: parse the first
word as a real; negative values become `Volume` of the magnitude, positive
values `Factor`; zero and NaN fail.  A second word that also parses as a real
fails with `tooManyScaleValues`; any other second word is freeform comment. -/
def parseScale (ls : List (List Char)) :
    Except PErr (ScaleLine × List (List Char)) := do
  let (line, rest) ← nextLine ls
  let (w, ws) ← nextWordOr (wordsContent line) .expectedScale
  let v ← parseRealWord w
  let scale ← (match v.cmpZero with
    | some .lt => .ok (ScaleLine.Volume v.neg)
    | some .gt => .ok (ScaleLine.Factor v)
    | some .eq => .error .scaleCannotBeZero
    | none => .error .scaleCannotBeNan)
  match ws with
  | [] => .ok (scale, rest)
  | w2 :: _ =>
    if (parseF64 w2).isSome then .error .tooManyScaleValues
    else .ok (scale, rest)

/-- Three reals from one lattice line, by word position (trailing words are
freeform comment). -/
def parseRow3 (line : List Char) : Except PErr V3 := do
  let ws := wordsContent line
  let (w1, ws) ← nextWordOr ws .expectedLatticeComponent
  let a ← parseRealWord w1
  let (w2, ws) ← nextWordOr ws .expectedLatticeComponent
  let b ← parseRealWord w2
  let (w3, _) ← nextWordOr ws .expectedLatticeComponent
  let c ← parseRealWord w3
  .ok (a, b, c)

/-- The three lattice-vector lines of `_from_reader`. -/
def parseLattice (ls : List (List Char)) :
    Except PErr ((V3 × V3 × V3) × List (List Char)) := do
  let (l1, ls) ← nextLine ls
  let r1 ← parseRow3 l1
  let (l2, ls) ← nextLine ls
  let r2 ← parseRow3 l2
  let (l3, ls) ← nextLine ls
  let r3 ← parseRow3 l3
  .ok ((r1, r2, r3), ls)

/-- Words of the counts line up to the first word that does not parse as an
unsigned integer (the `map(..).take_while(|e| e.is_ok()).collect()` chain;
the rest of the line is freeform comment). -/
def parsedCountsPrefix : List (List Char) → List Nat
  | [] => []
  | t :: ts =>
    match parseUnsignedTok t with
    | some n => n :: parsedCountsPrefix ts
    | none => []

/-- First character of `line.trim()` (the Rust `trim` strips whitespace from
both ends; only the leading edge can influence the first character). -/
def trimHead (l : List Char) : Option Char :=
  (l.dropWhile is_ascii_whitespace).head?

/-- Total-count and length checks at the end of the symbols/counts section. -/
def finishCounts (symbols : Option (List (List Char))) (counts : List Nat)
    (ls : List (List Char)) :
    Except PErr ((Option (List (List Char)) × List Nat × Nat) ×
      List (List Char)) :=
  let n := counts.sum
  if n = 0 then .error .noAtoms
  else .ok ((symbols, counts, n), ls)

/-- Embedding of the symbols/counts section of `_from_reader`: a line whose
first non-whitespace character is a digit is the counts line (no symbols);
otherwise the line holds the symbols and the next line the counts. -/
def parseSymbolsCounts (ls : List (List Char)) :
    Except PErr ((Option (List (List Char)) × List Nat × Nat) ×
      List (List Char)) := do
  let (line, ls) ← nextLine ls
  let _ ← nextWordOr (wordsContent line) .expectedElementOrCount
  match trimHead line with
  | none => .error .expectedElementOrCount
  | some c =>
    if c.isDigit then
      finishCounts none (parsedCountsPrefix (wordsContent line)) ls
    else do
      let (countsLine, ls) ← nextLine ls
      let syms := wordsContent line
      let counts := parsedCountsPrefix (wordsContent countsLine)
      if syms.length ≠ counts.length then .error .inconsistentGroupCount
      else finishCounts (some syms) counts ls

/-- Embedding of the coordinate-system decision in `_from_reader`: `true`
means direct (fractional) coordinates.  Only a control character in `cCkK`
selects cartesian; the guarded `Some(' ')` arm (a non-blank line typed with a
leading space, e.g. `"  Cartesian"`) also yields direct and merely logs a
warning in Rust. -/
def hasDirectLine (l : List Char) : Bool :=
  match control_char l with
  | some 'c' => false
  | some 'C' => false
  | some 'k' => false
  | some 'K' => false
  | some ' ' => true
  | _ => true

/-- Embedding of the flags section of `_from_reader`: a line whose control
character is `s`/`S` enables selective dynamics and is consumed; the
(possibly next) line then decides the coordinate system. -/
def parseFlags (ls : List (List Char)) :
    Except PErr ((Bool × Bool) × List (List Char)) := do
  let (line, ls) ← nextLine ls
  match control_char line with
  | some 's' => do
    let (l2, ls2) ← nextLine ls
    .ok ((true, hasDirectLine l2), ls2)
  | some 'S' => do
    let (l2, ls2) ← nextLine ls
    .ok ((true, hasDirectLine l2), ls2)
  | _ => .ok ((false, hasDirectLine line), ls)

/-- One data line of the position block: three reals, then — when selective
dynamics is enabled — three logicals, by word position. -/
def parseAtomLine (sel : Bool) (line : List Char) :
    Except PErr (V3 × Option B3) := do
  let ws := wordsContent line
  let (w1, ws) ← nextWordOr ws .expectedCoordinate
  let a ← parseRealWord w1
  let (w2, ws) ← nextWordOr ws .expectedCoordinate
  let b ← parseRealWord w2
  let (w3, ws) ← nextWordOr ws .expectedCoordinate
  let c ← parseRealWord w3
  if sel then do
    let (f1, ws) ← nextWordOr ws .expectedFlag
    let b1 ← parseLogicalWord f1
    let (f2, ws) ← nextWordOr ws .expectedFlag
    let b2 ← parseLogicalWord f2
    let (f3, _) ← nextWordOr ws .expectedFlag
    let b3 ← parseLogicalWord f3
    .ok ((a, b, c), some (b1, b2, b3))
  else .ok ((a, b, c), none)

/-- The `for _ in 0..n` loop over position lines, accumulating positions and
(when enabled) dynamics flags. -/
def parsePositionsGo (sel : Bool) :
    Nat → List (List Char) →
      Except PErr ((List V3 × List B3) × List (List Char))
  | 0, ls => .ok (([], []), ls)
  | n + 1, ls => do
    let (line, ls) ← nextLine ls
    let (v, d) ← parseAtomLine sel line
    let ((vs, ds), ls) ← parsePositionsGo sel n ls
    .ok ((v :: vs,
      match d with
      | some x => x :: ds
      | none => ds), ls)

/-- Embedding of the trailing loop of `_from_reader`: every remaining line
must consist of whitespace only (`line.trim().is_empty()`). -/
def checkTrailing : List (List Char) → Except PErr Unit
  | [] => .ok ()
  | l :: rest =>
    if l.all is_ascii_whitespace then checkTrailing rest
    else .error .unexpectedTrailingContent

/-- Embedding of `_from_reader` (`parse.rs`): the strict top-to-bottom walk
over the lines of the input.  Velocities are never populated (`let velocities
= None; // FIXME` in the source).  The final `.validate().expect(...)` —
a panic in Rust — is modelled as the distinguished error
`internalValidationBug`. -/
def fromLines (ls : List (List Char)) : Except PErr Poscar := do
  let (comment, ls) ← nextLine ls
  let (scale, ls) ← parseScale ls
  let (lattice, ls) ← parseLattice ls
  let ((group_symbols, group_counts, n), ls) ← parseSymbolsCounts ls
  let ((hasSel, hasDir), ls) ← parseFlags ls
  let ((posList, dynList), ls) ← parsePositionsGo hasSel n ls
  let positions := if hasDir then Coords.Frac posList else Coords.Cart posList
  let dynamics := if hasSel then some dynList else none
  let velocities : Option (Coords (List V3)) := none
  let _ ← checkTrailing ls
  match validate { comment, scale, lattice_vectors := lattice, group_symbols,
                   group_counts, positions, velocities, dynamics } with
  | .ok p => .ok p
  | .error _ => .error .internalValidationBug

/-- Parse text (a character stream) the way `from_reader` does: split it into
lines and run the grammar walk. -/
def fromText (cs : List Char) : Except PErr Poscar :=
  fromLines (linesOf cs)

-- --------------------------------------------------------------------------
-- Accessors (`types.rs`).

/-- Embedding of `Poscar::num_sites`: the length of the stored positions. -/
def Poscar.num_sites (p : Poscar) : Nat :=
  p.raw.positions.rawData.length

/-- Embedding of `Poscar::site_symbols`: when symbols are present, repeat
each group's symbol by its count (`group_counts.iter().zip(group_symbols)
.flat_map(...)`). -/
def Poscar.site_symbols (p : Poscar) : Option (List (List Char)) :=
  match p.raw.group_symbols with
  | none => none
  | some syms =>
    some ((p.raw.group_counts.zip syms).flatMap
      (fun cs => List.replicate cs.1 cs.2))

-- --------------------------------------------------------------------------
-- The claimed check order of `validate`, as an independent reference.
--
-- Each check below is written directly from the claim text (§4.4 of the
-- spec); `firstFailure` reports the first failing check in the claimed
-- order.  The theorem for claim C6 proves `validate` equal to this.

/-- Claimed check 1: `group_symbols`/`group_counts` length match. -/
def checkNumGroups (r : RawPoscar) : Option ValidationError :=
  match r.group_symbols with
  | some syms =>
    if r.group_counts.length = syms.length then none
    else some .InconsistentNumGroups
  | none => none

/-- Claimed check 2: the comment is free of line breaks. -/
def checkComment (r : RawPoscar) : Option ValidationError :=
  if r.comment.contains '\n' || r.comment.contains '\r' then
    some .NewlineInComment
  else none

/-- Claimed check 3: the scale payload is positive. -/
def checkScale (r : RawPoscar) : Option ValidationError :=
  if r.scale.payload.gtZero then none else some .BadScaleLine

/-- Claimed check 4: the total atom count is positive. -/
def checkAtoms (r : RawPoscar) : Option ValidationError :=
  if 0 < r.group_counts.sum then none else some .NoAtoms

/-- Claimed check 5: each symbol individually well-formed, and the joined
symbols line re-tokenizes to the original sequence. -/
def checkSymbols (r : RawPoscar) : Option ValidationError :=
  match r.group_symbols with
  | some syms =>
    (match firstInvalidSymbol syms with
     | some s => some (.InvalidSymbol (some s))
     | none =>
       if symbolsRetokenize syms then none else some (.InvalidSymbol none))
  | none => none

/-- Claimed check 6: positions length equals the total atom count. -/
def checkPositionsLen (r : RawPoscar) : Option ValidationError :=
  if r.positions.rawData.length = r.group_counts.sum then none
  else some (.WrongLength "positions".data r.group_counts.sum)

/-- Claimed check 7: velocities length (if present) equals the total count. -/
def checkVelocitiesLen (r : RawPoscar) : Option ValidationError :=
  match r.velocities with
  | some v =>
    if v.rawData.length = r.group_counts.sum then none
    else some (.WrongLength "velocities".data r.group_counts.sum)
  | none => none

/-- Claimed check 8: dynamics length (if present) equals the total count. -/
def checkDynamicsLen (r : RawPoscar) : Option ValidationError :=
  match r.dynamics with
  | some d =>
    if d.length = r.group_counts.sum then none
    else some (.WrongLength "dynamics".data r.group_counts.sum)
  | none => none

/-- The eight claimed checks, in the claimed order. -/
def validationChecks : List (RawPoscar → Option ValidationError) :=
  [checkNumGroups, checkComment, checkScale, checkAtoms, checkSymbols,
   checkPositionsLen, checkVelocitiesLen, checkDynamicsLen]

/-- The first failing check in the claimed order, if any. -/
def firstFailure (r : RawPoscar) : Option ValidationError :=
  validationChecks.findSome? (fun c => c r)

-- --------------------------------------------------------------------------
-- Vocabulary used by the theorem statements.

/-- A word token: non-empty and free of scanner whitespace. -/
def IsToken (t : List Char) : Prop :=
  t ≠ [] ∧ ∀ c ∈ t, is_ascii_whitespace c = false

-- --------------------------------------------------------------------------
-- Concrete sample structures used by witnesses and counterexamples.

/-- A sample coordinate triple with exactly representable components. -/
def rtV : V3 :=
  (F64.fin (mkRat 1 2), F64.fin (mkRat 0 1), F64.fin (mkRat (-3) 4))

/-- A validated-shape raw structure carrying velocities (every optional
section populated). -/
def c1Raw : RawPoscar :=
  { comment := ['c', '1'],
    scale := .Factor (.fin (mkRat 2 1)),
    lattice_vectors := (rtV, rtV, rtV),
    group_symbols := some [['C'], ['N']],
    group_counts := [1, 1],
    positions := .Frac [rtV, rtV],
    velocities := some (.Frac [rtV, rtV]),
    dynamics := some [(true, false, true), (false, false, true)] }

/-- The same structure without velocities. -/
def c1Ok : RawPoscar :=
  { comment := ['c', '1'],
    scale := .Factor (.fin (mkRat 2 1)),
    lattice_vectors := (rtV, rtV, rtV),
    group_symbols := some [['C'], ['N']],
    group_counts := [1, 1],
    positions := .Frac [rtV, rtV],
    velocities := none,
    dynamics := some [(true, false, true), (false, false, true)] }

/-- A minimal valid raw structure. -/
def c2Raw : RawPoscar :=
  { comment := ['c', '2'],
    scale := .Factor (.fin (mkRat 1 1)),
    lattice_vectors := (rtV, rtV, rtV),
    group_symbols := none,
    group_counts := [1],
    positions := .Frac [rtV],
    velocities := none,
    dynamics := none }

/-- An atom-free raw structure (fails validation with `NoAtoms`). -/
def c2BadA : RawPoscar :=
  { comment := ['a'],
    scale := .Factor (.fin (mkRat 1 1)),
    lattice_vectors := (rtV, rtV, rtV),
    group_symbols := none,
    group_counts := [],
    positions := .Frac [],
    velocities := none,
    dynamics := none }

/-- A second, distinct atom-free raw structure. -/
def c2BadB : RawPoscar :=
  { comment := ['b'],
    scale := .Factor (.fin (mkRat 1 1)),
    lattice_vectors := (rtV, rtV, rtV),
    group_symbols := none,
    group_counts := [],
    positions := .Frac [],
    velocities := none,
    dynamics := none }

/-- A raw structure whose scale payload is NaN, all other checks passing. -/
def c3Raw : RawPoscar :=
  { comment := ['c', '3'],
    scale := .Factor .nan,
    lattice_vectors := (rtV, rtV, rtV),
    group_symbols := none,
    group_counts := [1],
    positions := .Frac [rtV],
    velocities := none,
    dynamics := none }

-- ==========================================================================
-- Lemmas.
-- ==========================================================================

-- --------------------------------------------------------------------------
-- Tokenizer lemmas.

theorem wordsInWord_all_nonws (t : List Char)
    (ht : ∀ c ∈ t, is_ascii_whitespace c = false) :
    ∀ start acc i, wordsInWord start acc i t = [(start, acc.reverse ++ t)] := by
  induction t with
  | nil => intro start acc i; simp [wordsInWord]
  | cons x t ih =>
    intro start acc i
    have hx : is_ascii_whitespace x = false := ht x (by simp)
    rw [wordsInWord, hx]
    simp only [Bool.false_eq_true, if_false]
    rw [ih (fun c hc => ht c (by simp [hc]))]
    simp

theorem wordsInWord_append_ws (t : List Char)
    (ht : ∀ c ∈ t, is_ascii_whitespace c = false)
    {c : Char} (hc : is_ascii_whitespace c = true) :
    ∀ start acc i cs, wordsInWord start acc i (t ++ c :: cs) =
      (start, acc.reverse ++ t) :: wordsBetween (i + t.length + 1) cs := by
  induction t with
  | nil =>
    intro start acc i cs
    simp only [List.nil_append, List.append_nil, List.length_nil]
    rw [wordsInWord, hc]
    simp
  | cons x t ih =>
    intro start acc i cs
    have hx : is_ascii_whitespace x = false := ht x (by simp)
    simp only [List.cons_append]
    rw [wordsInWord, hx]
    simp only [Bool.false_eq_true, if_false]
    rw [ih (fun c hc => ht c (by simp [hc]))]
    have hidx : i + 1 + t.length = i + (t.length + 1) := by omega
    simp [List.reverse_cons, List.append_assoc, hidx]

theorem words_content_shift (cs : List Char) :
    (∀ i j, (wordsBetween i cs).map Prod.snd =
      (wordsBetween j cs).map Prod.snd) ∧
    (∀ s1 s2 a i j, (wordsInWord s1 a i cs).map Prod.snd =
      (wordsInWord s2 a j cs).map Prod.snd) := by
  induction cs with
  | nil => exact ⟨fun i j => rfl, fun s1 s2 a i j => rfl⟩
  | cons c cs ih =>
    constructor
    · intro i j
      rw [wordsBetween, wordsBetween]
      by_cases h : is_ascii_whitespace c = true
      · simp only [h, if_true]; exact ih.1 _ _
      · simp only [h, if_false]
        exact ih.2 _ _ _ _ _
    · intro s1 s2 a i j
      rw [wordsInWord, wordsInWord]
      by_cases h : is_ascii_whitespace c = true
      · simp only [h, if_true, List.map_cons]
        rw [ih.1 (i + 1) (j + 1)]
      · simp only [h, if_false]
        exact ih.2 _ _ _ _ _

theorem wordsContent_cons_ws {c : Char} (h : is_ascii_whitespace c = true)
    (cs : List Char) : wordsContent (c :: cs) = wordsContent cs := by
  unfold wordsContent words
  rw [wordsBetween, h]
  simp only [if_true]
  exact (words_content_shift cs).1 1 0

theorem wordsContent_token {t : List Char} (h : IsToken t) :
    wordsContent t = [t] := by
  obtain ⟨hne, hws⟩ := h
  match t with
  | [] => exact absurd rfl hne
  | x :: t =>
    unfold wordsContent words
    rw [wordsBetween, hws x (by simp)]
    simp only [Bool.false_eq_true, if_false]
    rw [wordsInWord_all_nonws t (fun c hc => hws c (by simp [hc]))]
    simp

theorem wordsContent_token_cons {t : List Char} (h : IsToken t)
    {c : Char} (hc : is_ascii_whitespace c = true) (cs : List Char) :
    wordsContent (t ++ c :: cs) = t :: wordsContent cs := by
  obtain ⟨hne, hws⟩ := h
  match t with
  | [] => exact absurd rfl hne
  | x :: t =>
    unfold wordsContent words
    simp only [List.cons_append]
    rw [wordsBetween, hws x (by simp)]
    simp only [Bool.false_eq_true, if_false]
    rw [wordsInWord_append_ws t (fun c hc => hws c (by simp [hc])) hc]
    simp only [List.map_cons, List.reverse_cons, List.reverse_nil,
      List.nil_append, List.singleton_append]
    rw [(words_content_shift cs).1 (1 + t.length + 1) 0]

-- --------------------------------------------------------------------------
-- Decimal numeral lemmas.

theorem digitChar_isDigit {d : Nat} (h : d < 10) :
    (digitChar d).isDigit = true := by
  interval_cases d <;> decide

theorem digitChar_toNat {d : Nat} (h : d < 10) :
    (digitChar d).toNat = 48 + d := by
  interval_cases d <;> decide

theorem isDigit_not_ws {c : Char} (h : c.isDigit = true) :
    is_ascii_whitespace c = false := by
  cases hws : is_ascii_whitespace c
  · rfl
  · exfalso
    unfold is_ascii_whitespace at hws
    split at hws <;> simp_all

theorem ofDigits_append_singleton (xs : List Char) (c : Char) :
    ofDigits (xs ++ [c]) = ofDigits xs * 10 + (c.toNat - 48) := by
  unfold ofDigits
  rw [List.foldl_append]
  rfl

theorem natDigitsRevF_spec :
    ∀ fuel n, n < fuel →
      natDigitsRevF fuel n ≠ [] ∧
      (∀ c ∈ natDigitsRevF fuel n, c.isDigit = true) ∧
      ofDigits ((natDigitsRevF fuel n).reverse) = n := by
  intro fuel
  induction fuel with
  | zero => intro n h; omega
  | succ fuel ih =>
    intro n _
    rw [natDigitsRevF]
    by_cases h10 : n < 10
    · simp only [h10, if_true]
      refine ⟨by simp, ?_, ?_⟩
      · intro c hc
        simp only [List.mem_singleton] at hc
        subst hc
        exact digitChar_isDigit h10
      · simp [ofDigits, digitChar_toNat h10]
    · simp only [h10, if_false]
      have hdiv : n / 10 < fuel := by omega
      obtain ⟨ihne, ihdig, ihval⟩ := ih (n / 10) hdiv
      refine ⟨by simp, ?_, ?_⟩
      · intro c hc
        simp only [List.mem_cons] at hc
        rcases hc with hc | hc
        · subst hc; exact digitChar_isDigit (by omega)
        · exact ihdig c hc
      · rw [List.reverse_cons, ofDigits_append_singleton, ihval,
          digitChar_toNat (by omega : n % 10 < 10)]
        omega

theorem natRepr_ne_nil (n : Nat) : natRepr n ≠ [] := by
  unfold natRepr
  have := (natDigitsRevF_spec (n + 1) n (by omega)).1
  simpa using this

theorem natRepr_digits (n : Nat) : ∀ c ∈ natRepr n, c.isDigit = true := by
  unfold natRepr
  intro c hc
  exact (natDigitsRevF_spec (n + 1) n (by omega)).2.1 c (by simpa using hc)

theorem ofDigits_natRepr (n : Nat) : ofDigits (natRepr n) = n :=
  (natDigitsRevF_spec (n + 1) n (by omega)).2.2

theorem natRepr_isToken (n : Nat) : IsToken (natRepr n) :=
  ⟨natRepr_ne_nil n, fun c hc => isDigit_not_ws (natRepr_digits n c hc)⟩

theorem parseUnsignedTok_natRepr (n : Nat) :
    parseUnsignedTok (natRepr n) = some n := by
  rcases hr : natRepr n with _ | ⟨c, rest⟩
  · exact absurd hr (natRepr_ne_nil n)
  · have hdig : ∀ x ∈ natRepr n, x.isDigit = true := natRepr_digits n
    have hc : c.isDigit = true := hdig c (by rw [hr]; simp)
    have hplus : ¬(c = '+') := by
      intro h; subst h; simp at hc
    have hall : (c :: rest).all Char.isDigit = true := by
      rw [List.all_eq_true]
      intro x hx
      exact hdig x (by rw [hr]; exact hx)
    simp only [parseUnsignedTok]
    rw [if_neg hplus, if_pos hall, ← hr, ofDigits_natRepr]

-- --------------------------------------------------------------------------
-- Float print/parse round-trip lemmas.

theorem takeWhile_all {p : Char → Bool} :
    ∀ l : List Char, (∀ x ∈ l, p x = true) → l.takeWhile p = l := by
  intro l
  induction l with
  | nil => intro _; rfl
  | cons x l ih =>
    intro h
    rw [List.takeWhile_cons, h x (by simp)]
    simp [ih (fun y hy => h y (by simp [hy]))]

theorem takeWhile_all_append {p : Char → Bool} (xs : List Char)
    (h : ∀ x ∈ xs, p x = true) {y : Char} (hy : p y = false)
    (ys : List Char) : (xs ++ y :: ys).takeWhile p = xs := by
  induction xs with
  | nil => simp [List.takeWhile_cons, hy]
  | cons x xs ih =>
    rw [List.cons_append, List.takeWhile_cons, h x (by simp)]
    simp [ih (fun z hz => h z (by simp [hz]))]

theorem beq_false_of_isDigit {c d : Char} (h : c.isDigit = true)
    (hd : d.isDigit = false) : (c == d) = false := by
  cases hb : c == d
  · rfl
  · exfalso
    have := eq_of_beq hb
    subst this
    rw [h] at hd
    exact Bool.noConfusion hd

theorem isNanToken_digit_head {c : Char} (h : c.isDigit = true)
    (r : List Char) : isNanToken (c :: r) = false := by
  have hn : (c == 'n') = false := beq_false_of_isDigit h (by decide)
  have hN : (c == 'N') = false := beq_false_of_isDigit h (by decide)
  unfold isNanToken
  match r with
  | [] => rfl
  | [_] => rfl
  | [_, _] => simp [hn, hN]
  | _ :: _ :: _ :: _ => rfl

theorem parseExpPart_eneg (es : List Char) (hne : es ≠ [])
    (hdig : ∀ c ∈ es, c.isDigit = true) :
    parseExpPart ('e' :: '-' :: es) = some (-(ofDigits es : ℤ)) := by
  have hall : es.all Char.isDigit = true := by
    rw [List.all_eq_true]; exact hdig
  unfold parseExpPart
  simp [hne, hall]

theorem parseF64Sign_digits (neg : Bool) (ds : List Char) (hne : ds ≠ [])
    (hdig : ∀ c ∈ ds, c.isDigit = true) :
    parseF64Sign neg ds = some (mkF64 neg ds [] 0) := by
  match ds with
  | [] => exact absurd rfl hne
  | c :: rest =>
    have hnan : isNanToken (c :: rest) = false :=
      isNanToken_digit_head (hdig c (by simp)) rest
    unfold parseF64Sign
    rw [hnan]
    simp only [Bool.false_eq_true, if_false]
    rw [takeWhile_all (c :: rest) hdig, List.drop_length]
    simp
    rfl

theorem parseF64Sign_digits_exp (neg : Bool) (ds es : List Char)
    (hne : ds ≠ []) (hdig : ∀ c ∈ ds, c.isDigit = true)
    (hene : es ≠ []) (hedig : ∀ c ∈ es, c.isDigit = true) :
    parseF64Sign neg (ds ++ 'e' :: '-' :: es) =
      some (mkF64 neg ds [] (-(ofDigits es : ℤ))) := by
  match ds with
  | [] => exact absurd rfl hne
  | c :: rest =>
    have hnan : isNanToken ((c :: rest) ++ 'e' :: '-' :: es) = false := by
      rw [List.cons_append]
      exact isNanToken_digit_head (hdig c (by simp)) _
    unfold parseF64Sign
    rw [hnan]
    simp only [Bool.false_eq_true, if_false]
    rw [takeWhile_all_append (c :: rest) hdig (by decide) _]
    rw [List.drop_left]
    rw [parseExpPart_eneg es hene hedig]
    simp

theorem parseF64_cons_nonsign {c : Char} (h1 : ¬(c = '-')) (h2 : ¬(c = '+'))
    (r : List Char) : parseF64 (c :: r) = parseF64Sign false (c :: r) := by
  unfold parseF64
  split
  · rename_i heq; cases heq
  · rename_i heq
    exfalso
    cases heq
    exact h1 rfl
  · rename_i heq
    exfalso
    cases heq
    exact h2 rfl
  · rfl

theorem parseF64_cons_neg (r : List Char) :
    parseF64 ('-' :: r) = parseF64Sign true r := rfl

theorem mkF64_digits (neg : Bool) (ds : List Char) :
    mkF64 neg ds [] 0 =
      .fin (mkRat (if neg then -(ofDigits ds : ℤ) else (ofDigits ds : ℤ)) 1) := by
  unfold mkF64
  simp

theorem mkF64_digits_negexp (neg : Bool) (ds : List Char) (e : ℕ)
    (he : 0 < e) :
    mkF64 neg ds [] (-(e : ℤ)) =
      .fin (mkRat (if neg then -(ofDigits ds : ℤ) else (ofDigits ds : ℤ))
        (10 ^ e)) := by
  unfold mkF64
  have hE : ¬((0 : ℤ) ≤ -(e : ℤ) - (([] : List Char).length : ℤ)) := by
    simp
    omega
  simp only [List.append_nil]
  rw [if_neg hE]
  simp

theorem repOK_dvd {q : ℚ} (h : repOK q = true) : q.den ∣ 10 ^ q.den := by
  unfold repOK at h
  simp only [beq_iff_eq] at h
  exact Nat.dvd_iff_mod_eq_zero.mpr h

theorem mkRat_scaled_eq (q : ℚ) (h : repOK q = true) :
    mkRat (q.num * ((10 ^ q.den) / q.den : ℕ)) (10 ^ q.den) = q := by
  have hdvd : q.den ∣ 10 ^ q.den := repOK_dvd h
  have hk : ((10 ^ q.den) / q.den) * q.den = 10 ^ q.den :=
    Nat.div_mul_cancel hdvd
  have hkpos : 0 < (10 ^ q.den) / q.den :=
    Nat.div_pos (Nat.le_of_dvd (by positivity) hdvd) q.pos
  have hk2 : (((10 ^ q.den) / q.den : ℕ) : ℚ) * (q.den : ℚ) = (10 : ℚ) ^ q.den := by
    exact_mod_cast hk
  have hkne : (((10 ^ q.den) / q.den : ℕ) : ℚ) ≠ 0 := by
    exact_mod_cast hkpos.ne.symm
  rw [Rat.mkRat_eq_div]
  rw [Int.cast_mul, Int.cast_natCast]
  rw [show ((10 ^ q.den : ℕ) : ℚ) =
      (((10 ^ q.den) / q.den : ℕ) : ℚ) * (q.den : ℚ) from by exact_mod_cast hk.symm]
  rw [mul_comm ((q.num : ℚ)) _, mul_div_mul_left _ _ hkne]
  exact Rat.num_div_den q

theorem repOK_neg (q : ℚ) : repOK (-q) = repOK q := by
  unfold repOK
  rw [Rat.neg_den]

theorem printF64_fin_neg {q : ℚ} (hq : q < 0) :
    printF64 (.fin q) = '-' :: printF64 (.fin (-q)) := by
  have hnum : q.num < 0 := Rat.num_neg.mpr hq
  simp only [printF64]
  rw [Rat.neg_den, Rat.neg_num]
  by_cases hden : q.den = 1
  · rw [if_pos hden, if_pos hden]
    unfold intRepr
    rw [if_neg (by omega : ¬(-q.num < 0)), if_pos hnum, Int.natAbs_neg]
  · rw [if_neg hden, if_neg hden]
    unfold intRepr
    have hkpos : 0 < ((10 ^ q.den) / q.den : ℕ) := by
      refine Nat.div_pos ?_ q.pos
      calc q.den ≤ 2 ^ q.den := (Nat.lt_two_pow q.den).le
        _ ≤ 10 ^ q.den := Nat.pow_le_pow_left (by norm_num) _
    have hkz : (0 : ℤ) < (((10 ^ q.den) / q.den : ℕ) : ℤ) := by exact_mod_cast hkpos
    have hmneg : q.num * (((10 ^ q.den) / q.den : ℕ) : ℤ) < 0 :=
      mul_neg_of_neg_of_pos hnum hkz
    rw [if_pos hmneg, if_neg (by push_cast; nlinarith : ¬(-q.num * (((10 ^ q.den) / q.den : ℕ) : ℤ) < 0))]
    rw [neg_mul, Int.natAbs_neg]
    rfl

theorem printF64_pos_head {q : ℚ} (hq : 0 < q) :
    ∃ c r, printF64 (.fin q) = c :: r ∧ c.isDigit = true := by
  have hnum : 0 ≤ q.num := (Rat.num_pos.mpr hq).le
  simp only [printF64]
  by_cases hden : q.den = 1
  · rw [if_pos hden]
    unfold intRepr
    rw [if_neg (by omega)]
    rcases hrep : natRepr q.num.natAbs with _ | ⟨c, r⟩
    · exact absurd hrep (natRepr_ne_nil _)
    · exact ⟨c, r, rfl, natRepr_digits _ c (by rw [hrep]; simp)⟩
  · rw [if_neg hden]
    unfold intRepr
    have hmpos : 0 ≤ q.num * (((10 ^ q.den) / q.den : ℕ) : ℤ) :=
      mul_nonneg hnum (by positivity)
    rw [if_neg (by omega)]
    rcases hrep : natRepr (q.num * (((10 ^ q.den) / q.den : ℕ) : ℤ)).natAbs
      with _ | ⟨c, r⟩
    · exact absurd hrep (natRepr_ne_nil _)
    · exact ⟨c, r ++ 'e' :: '-' :: natRepr q.den, rfl,
        natRepr_digits _ c (by rw [hrep]; simp)⟩

theorem parseF64Sign_printF64_pos {q : ℚ} (hq : 0 < q) (h : repOK q = true)
    (neg : Bool) :
    parseF64Sign neg (printF64 (.fin q)) =
      some (.fin (if neg then -q else q)) := by
  have hnum : 0 < q.num := Rat.num_pos.mpr hq
  by_cases hden : q.den = 1
  · have hprint : printF64 (.fin q) = natRepr q.num.natAbs := by
      simp only [printF64]
      rw [if_pos hden]
      unfold intRepr
      rw [if_neg (by omega)]
    rw [hprint,
      parseF64Sign_digits neg _ (natRepr_ne_nil _)
        (natRepr_digits _),
      mkF64_digits, ofDigits_natRepr, Int.natAbs_of_nonneg hnum.le]
    have hqq : ((q.num : ℚ)) = q := Rat.coe_int_num_of_den_eq_one hden
    cases neg
    · simp [Rat.mkRat_one, hqq]
    · simp only [if_true]
      rw [show mkRat (-q.num) 1 = -(mkRat q.num 1) from (Rat.neg_mkRat _ _).symm]
      rw [Rat.mkRat_one, hqq]
  · have hkpos : 0 < ((10 ^ q.den) / q.den : ℕ) := by
      refine Nat.div_pos ?_ q.pos
      calc q.den ≤ 2 ^ q.den := (Nat.lt_two_pow q.den).le
        _ ≤ 10 ^ q.den := Nat.pow_le_pow_left (by norm_num) _
    have hmpos : 0 < q.num * (((10 ^ q.den) / q.den : ℕ) : ℤ) :=
      mul_pos hnum (by exact_mod_cast hkpos)
    have hprint : printF64 (.fin q) =
        natRepr (q.num * (((10 ^ q.den) / q.den : ℕ) : ℤ)).natAbs ++
          'e' :: '-' :: natRepr q.den := by
      simp only [printF64]
      rw [if_neg hden]
      unfold intRepr
      rw [if_neg (by omega)]
    rw [hprint,
      parseF64Sign_digits_exp neg _ _ (natRepr_ne_nil _) (natRepr_digits _)
        (natRepr_ne_nil _) (natRepr_digits _),
      ofDigits_natRepr,
      mkF64_digits_negexp neg _ q.den q.pos,
      ofDigits_natRepr, Int.natAbs_of_nonneg hmpos.le]
    cases neg
    · simp only [Bool.false_eq_true, if_false]
      rw [mkRat_scaled_eq q h]
    · simp only [if_true]
      rw [show mkRat (-(q.num * (((10 ^ q.den) / q.den : ℕ) : ℤ))) (10 ^ q.den)
          = -(mkRat (q.num * (((10 ^ q.den) / q.den : ℕ) : ℤ)) (10 ^ q.den))
          from (Rat.neg_mkRat _ _).symm]
      rw [mkRat_scaled_eq q h]

theorem parseF64_printF64 (v : F64) (h : v.repOK = true) :
    parseF64 (printF64 v) = some v := by
  match v with
  | .nan => decide
  | .fin q =>
    rcases lt_trichotomy q 0 with hq | hq | hq
    · rw [printF64_fin_neg hq, parseF64_cons_neg]
      have hrep : repOK (-q) = true := by rw [repOK_neg]; exact h
      rw [parseF64Sign_printF64_pos (by linarith) hrep true]
      simp
    · subst hq
      decide
    · obtain ⟨c, r, hcr, hdig⟩ := printF64_pos_head hq
      rw [hcr, parseF64_cons_nonsign
        (by intro hc; subst hc; simp at hdig)
        (by intro hc; subst hc; simp at hdig), ← hcr]
      rw [parseF64Sign_printF64_pos hq h false]
      simp

theorem parseF64_neg_printF64 {q : ℚ} (hq : 0 < q) (h : repOK q = true) :
    parseF64 ('-' :: printF64 (.fin q)) = some (.fin (-q)) := by
  rw [parseF64_cons_neg, parseF64Sign_printF64_pos hq h true]
  simp

-- --------------------------------------------------------------------------
-- Token facts for the writer output.

theorem intRepr_isToken (m : ℤ) : IsToken (intRepr m) := by
  unfold intRepr
  by_cases hm : m < 0
  · rw [if_pos hm]
    refine ⟨by simp, ?_⟩
    intro c hc
    simp only [List.mem_cons] at hc
    rcases hc with rfl | hc
    · decide
    · exact (natRepr_isToken _).2 c hc
  · rw [if_neg hm]
    exact natRepr_isToken _

theorem printF64_isToken (v : F64) : IsToken (printF64 v) := by
  match v with
  | .nan => exact ⟨by decide, by decide⟩
  | .fin q =>
    simp only [printF64]
    by_cases hden : q.den = 1
    · rw [if_pos hden]
      exact intRepr_isToken _
    · rw [if_neg hden]
      obtain ⟨hne, hws⟩ := intRepr_isToken (q.num * (((10 ^ q.den) / q.den : ℕ) : ℤ))
      refine ⟨by simp [hne], ?_⟩
      intro c hc
      rw [List.mem_append] at hc
      rcases hc with hc | hc
      · exact hws c hc
      · simp only [List.mem_cons] at hc
        rcases hc with rfl | rfl | hc
        · decide
        · decide
        · exact isDigit_not_ws (natRepr_digits _ c hc)

theorem neg_printF64_isToken (x : F64) : IsToken ('-' :: printF64 x) := by
  obtain ⟨_, hws⟩ := printF64_isToken x
  refine ⟨by simp, ?_⟩
  intro c hc
  simp only [List.mem_cons] at hc
  rcases hc with rfl | hc
  · decide
  · exact hws c hc

theorem logChar_not_ws (b : Bool) :
    is_ascii_whitespace (logChar b) = false := by
  cases b <;> decide

theorem parseLogical_logChar (b : Bool) : parseLogical [logChar b] = some b := by
  cases b <;> decide

-- --------------------------------------------------------------------------
-- Word content of the rendered lines.

theorem wc_sp (l : List Char) : wordsContent (' ' :: l) = wordsContent l :=
  wordsContent_cons_ws (by decide) l

theorem wc_tok_cons {t : List Char} (ht : IsToken t) (l : List Char) :
    wordsContent (t ++ ' ' :: l) = t :: wordsContent l :=
  wordsContent_token_cons ht (by decide) l

theorem wc_replicate_sp (k : Nat) (l : List Char) :
    wordsContent (List.replicate k ' ' ++ l) = wordsContent l := by
  induction k with
  | zero => rfl
  | succ k ih => rw [List.replicate_succ, List.cons_append, wc_sp, ih]

theorem pad2_eq (t : List Char) :
    pad2 t = List.replicate (2 - t.length) ' ' ++ t := by
  unfold pad2
  split
  · rfl
  · rename_i h
    have : 2 - t.length = 0 := by omega
    rw [this]
    simp

theorem wc_sepBySpace_pads (ts : List (List Char))
    (h : ∀ t ∈ ts, IsToken t) :
    wordsContent (sepBySpace (ts.map pad2)) = ts := by
  induction ts with
  | nil => rfl
  | cons t ts ih =>
    match ts with
    | [] =>
      simp only [List.map_cons, List.map_nil, sepBySpace]
      rw [pad2_eq, wc_replicate_sp]
      exact wordsContent_token (h t (by simp))
    | t2 :: ts2 =>
      have step : sepBySpace ((t :: t2 :: ts2).map pad2) =
          pad2 t ++ ' ' :: sepBySpace ((t2 :: ts2).map pad2) := by
        simp only [List.map_cons, sepBySpace]
      rw [step, pad2_eq, List.append_assoc, wc_replicate_sp,
        wc_tok_cons (h t (by simp))]
      rw [show (t2 :: ts2).map pad2 = ((t2 :: ts2).map pad2) from rfl] at ih
      rw [ih (fun x hx => h x (by simp [List.mem_cons] at hx ⊢; tauto))]

theorem wc_v3 (v : V3) :
    wordsContent (v3Tokens v) =
      [printF64 v.1, printF64 v.2.1, printF64 v.2.2] := by
  unfold v3Tokens
  simp only [List.cons_append, List.append_assoc]
  rw [wc_tok_cons (printF64_isToken _), wc_tok_cons (printF64_isToken _),
    wordsContent_token (printF64_isToken _)]

theorem logChar_isToken (b : Bool) : IsToken [logChar b] := by
  refine ⟨by simp, ?_⟩
  intro c hc
  simp only [List.mem_singleton] at hc
  subst hc
  exact logChar_not_ws b

theorem wc_v3_flags (v : V3) (d : B3) :
    wordsContent (v3Tokens v ++ ' ' :: flagTokens d) =
      [printF64 v.1, printF64 v.2.1, printF64 v.2.2,
       [logChar d.1], [logChar d.2.1], [logChar d.2.2]] := by
  have hfl : v3Tokens v ++ ' ' :: flagTokens d =
      printF64 v.1 ++ ' ' :: (printF64 v.2.1 ++ ' ' :: (printF64 v.2.2 ++
        ' ' :: ([logChar d.1] ++ ' ' :: ([logChar d.2.1] ++
          ' ' :: [logChar d.2.2])))) := by
    unfold v3Tokens flagTokens
    simp only [List.cons_append, List.append_assoc, List.nil_append]
  rw [hfl, wc_tok_cons (printF64_isToken _), wc_tok_cons (printF64_isToken _),
    wc_tok_cons (printF64_isToken _), wc_tok_cons (logChar_isToken _),
    wc_tok_cons (logChar_isToken _), wordsContent_token (logChar_isToken _)]

theorem wc_latticeLine (row : V3) :
    wordsContent (latticeLineChars row) =
      [printF64 row.1, printF64 row.2.1, printF64 row.2.2] := by
  unfold latticeLineChars
  rw [wc_sp, wc_sp, wc_sp, wc_sp, wc_v3]

theorem wc_atomLine_none (v : V3) :
    wordsContent (atomLine v none) =
      [printF64 v.1, printF64 v.2.1, printF64 v.2.2] := by
  show wordsContent (' ' :: ' ' :: (v3Tokens v ++ [])) =
    [printF64 v.1, printF64 v.2.1, printF64 v.2.2]
  rw [List.append_nil, wc_sp, wc_sp, wc_v3]

theorem wc_atomLine_some (v : V3) (d : B3) :
    wordsContent (atomLine v (some d)) =
      [printF64 v.1, printF64 v.2.1, printF64 v.2.2,
       [logChar d.1], [logChar d.2.1], [logChar d.2.2]] := by
  show wordsContent (' ' :: ' ' :: (v3Tokens v ++ ' ' :: flagTokens d)) = _
  rw [wc_sp, wc_sp, wc_v3_flags]

theorem wc_scaleLine_factor (x : F64) :
    wordsContent (scaleLineChars (.Factor x)) = [printF64 x] := by
  unfold scaleLineChars
  rw [wc_sp, wc_sp]
  exact wordsContent_token (printF64_isToken x)

theorem wc_scaleLine_volume (x : F64) :
    wordsContent (scaleLineChars (.Volume x)) = ['-' :: printF64 x] := by
  unfold scaleLineChars
  rw [wc_sp, wc_sp]
  exact wordsContent_token (neg_printF64_isToken x)

theorem wc_countsLine (counts : List Nat) :
    wordsContent (countsLineChars counts) = counts.map natRepr := by
  unfold countsLineChars
  rw [wc_sp, wc_sp]
  have : counts.map (fun c => pad2 (natRepr c)) = (counts.map natRepr).map pad2 := by
    rw [List.map_map]
    rfl
  rw [this, wc_sepBySpace_pads]
  intro t ht
  rw [List.mem_map] at ht
  obtain ⟨n, _, rfl⟩ := ht
  exact natRepr_isToken n

theorem wc_symbolsLine (syms : List (List Char))
    (h : ∀ s ∈ syms, IsToken s) :
    wordsContent (symbolsLineChars syms) = syms := by
  unfold symbolsLineChars
  rw [wc_sp, wc_sp, wc_sepBySpace_pads syms h]

-- --------------------------------------------------------------------------
-- Round-trip lemmas for the parser sections.

theorem F64_repOK_fin {q : ℚ} (h : F64.repOK (.fin q) = true) :
    repOK q = true := h

theorem except_bind_ok {ε α β : Type} (a : α) (f : α → Except ε β) :
    (Except.ok a >>= f : Except ε β) = f a := rfl

theorem except_bind_err {ε α β : Type} (e : ε) (f : α → Except ε β) :
    (Except.error e >>= f : Except ε β) = Except.error e := rfl

theorem parseScale_rt_factor {q : ℚ} (hq : 0 < q) (h : repOK q = true)
    (ls : List (List Char)) :
    parseScale (scaleLineChars (.Factor (.fin q)) :: ls) =
      .ok (.Factor (.fin q), ls) := by
  have hcmp : compare q 0 = Ordering.gt := compare_gt_iff_gt.mpr hq
  simp only [parseScale, nextLine, except_bind_ok, wc_scaleLine_factor,
    nextWordOr, parseRealWord, parseF64_printF64 (.fin q) h, F64.cmpZero, hcmp]

theorem parseScale_rt_volume {q : ℚ} (hq : 0 < q) (h : repOK q = true)
    (ls : List (List Char)) :
    parseScale (scaleLineChars (.Volume (.fin q)) :: ls) =
      .ok (.Volume (.fin q), ls) := by
  have hcmp : compare (-q) 0 = Ordering.lt := compare_lt_iff_lt.mpr (by linarith)
  simp only [parseScale, nextLine, except_bind_ok, wc_scaleLine_volume,
    nextWordOr, parseRealWord, parseF64_neg_printF64 hq h, F64.cmpZero, hcmp]
  simp [F64.neg]

theorem parseRow3_rt (row : V3) (h : V3.repOK row = true) :
    parseRow3 (latticeLineChars row) = .ok row := by
  unfold V3.repOK at h
  rw [Bool.and_eq_true, Bool.and_eq_true] at h
  obtain ⟨⟨h1, h2⟩, h3⟩ := h
  simp only [parseRow3, except_bind_ok, wc_latticeLine, nextWordOr,
    parseRealWord, parseF64_printF64 _ h1, parseF64_printF64 _ h2,
    parseF64_printF64 _ h3]
  rfl

theorem parseLattice_rt (lat : V3 × V3 × V3)
    (h1 : V3.repOK lat.1 = true) (h2 : V3.repOK lat.2.1 = true)
    (h3 : V3.repOK lat.2.2 = true) (ls : List (List Char)) :
    parseLattice (latticeLineChars lat.1 :: latticeLineChars lat.2.1 ::
        latticeLineChars lat.2.2 :: ls) = .ok (lat, ls) := by
  simp only [parseLattice, nextLine, except_bind_ok, parseRow3_rt lat.1 h1,
    parseRow3_rt lat.2.1 h2, parseRow3_rt lat.2.2 h3]

theorem parsedCountsPrefix_natRepr (counts : List Nat) :
    parsedCountsPrefix (counts.map natRepr) = counts := by
  induction counts with
  | nil => rfl
  | cons c counts ih =>
    simp only [List.map_cons, parsedCountsPrefix, parseUnsignedTok_natRepr, ih]

theorem trimHead_sp (l : List Char) : trimHead (' ' :: l) = trimHead l := by
  simp [trimHead, List.dropWhile_cons]
  rfl

theorem trimHead_replicate_sp (k : Nat) (l : List Char) :
    trimHead (List.replicate k ' ' ++ l) = trimHead l := by
  induction k with
  | zero => rfl
  | succ k ih => rw [List.replicate_succ, List.cons_append, trimHead_sp, ih]

theorem trimHead_cons_nonws {c : Char} (h : is_ascii_whitespace c = false)
    (l : List Char) : trimHead (c :: l) = some c := by
  simp [trimHead, List.dropWhile_cons, h]

theorem sepBySpace_cons_shape (a : List Char) (rest : List (List Char)) :
    ∃ tail, sepBySpace (a :: rest) = a ++ tail := by
  match rest with
  | [] => exact ⟨[], by simp [sepBySpace]⟩
  | b :: rest2 => exact ⟨' ' :: sepBySpace (b :: rest2), rfl⟩

theorem trimHead_countsLine (c0 : Nat) (rest : List Nat) :
    ∃ c, trimHead (countsLineChars (c0 :: rest)) = some c ∧
      c.isDigit = true := by
  unfold countsLineChars
  rw [trimHead_sp, trimHead_sp]
  simp only [List.map_cons]
  obtain ⟨tail, htail⟩ := sepBySpace_cons_shape (pad2 (natRepr c0)) _
  rw [htail, pad2_eq, List.append_assoc, trimHead_replicate_sp]
  rcases hrep : natRepr c0 with _ | ⟨d, r⟩
  · exact absurd hrep (natRepr_ne_nil c0)
  · have hd : d.isDigit = true := natRepr_digits c0 d (by rw [hrep]; simp)
    rw [List.cons_append]
    exact ⟨d, trimHead_cons_nonws (isDigit_not_ws hd) _, hd⟩

theorem firstInvalid_none_valid {syms : List (List Char)}
    (h : firstInvalidSymbol syms = none) :
    ∀ s ∈ syms, is_valid_symbol_for_symbol_line s = true := by
  induction syms with
  | nil => intro s hs; cases hs
  | cons t syms ih =>
    intro s hs
    unfold firstInvalidSymbol at h
    by_cases hv : is_valid_symbol_for_symbol_line t = true
    · rw [hv] at h
      simp only [if_true] at h
      simp only [List.mem_cons] at hs
      rcases hs with rfl | hs
      · exact hv
      · exact ih h s hs
    · rw [if_neg (by simpa using hv)] at h
      cases h

theorem valid_symbol_shape {s : List Char}
    (h : is_valid_symbol_for_symbol_line s = true) :
    IsToken s ∧ ∃ c r, s = c :: r ∧ c.isDigit = false := by
  match s with
  | [] => cases h
  | c :: r =>
    unfold is_valid_symbol_for_symbol_line at h
    rw [Bool.and_eq_true] at h
    obtain ⟨hdig, hall⟩ := h
    rw [List.all_eq_true] at hall
    refine ⟨⟨by simp, ?_⟩, c, r, rfl, by simpa using hdig⟩
    intro x hx
    simpa using hall x hx

theorem trimHead_symbolsLine {s0 : List Char} {c : Char} {r : List Char}
    (hs0 : s0 = c :: r) (hc : is_ascii_whitespace c = false)
    (rest : List (List Char)) :
    trimHead (symbolsLineChars (s0 :: rest)) = some c := by
  unfold symbolsLineChars
  rw [trimHead_sp, trimHead_sp]
  simp only [List.map_cons]
  obtain ⟨tail, htail⟩ := sepBySpace_cons_shape (pad2 s0) _
  rw [htail, pad2_eq, List.append_assoc, trimHead_replicate_sp, hs0,
    List.cons_append]
  exact trimHead_cons_nonws hc _

theorem parseSymbolsCounts_rt_none (counts : List Nat) (hne : counts ≠ [])
    (hsum : counts.sum ≠ 0) (ls : List (List Char)) :
    parseSymbolsCounts (countsLineChars counts :: ls) =
      .ok ((none, counts, counts.sum), ls) := by
  match counts with
  | [] => exact absurd rfl hne
  | c0 :: rest =>
    obtain ⟨c, hc, hdig⟩ := trimHead_countsLine c0 rest
    have hwc : wordsContent (countsLineChars (c0 :: rest)) =
        (c0 :: rest).map natRepr := wc_countsLine _
    simp only [parseSymbolsCounts, nextLine, except_bind_ok, hwc,
      List.map_cons, nextWordOr, hc, hdig, if_true]
    rw [← List.map_cons, parsedCountsPrefix_natRepr]
    unfold finishCounts
    rw [if_neg hsum]

theorem parseSymbolsCounts_rt_some (syms : List (List Char))
    (counts : List Nat)
    (hval : ∀ s ∈ syms, is_valid_symbol_for_symbol_line s = true)
    (hne : syms ≠ []) (hlen : syms.length = counts.length)
    (hsum : counts.sum ≠ 0) (ls : List (List Char)) :
    parseSymbolsCounts (symbolsLineChars syms :: countsLineChars counts :: ls) =
      .ok ((some syms, counts, counts.sum), ls) := by
  match syms with
  | [] => exact absurd rfl hne
  | s0 :: srest =>
    obtain ⟨⟨_, _⟩, c, r, hcr, hcd⟩ := valid_symbol_shape (hval s0 (by simp))
    have hcws : is_ascii_whitespace c = false := by
      have := (valid_symbol_shape (hval s0 (by simp))).1.2
      rw [hcr] at this
      exact this c (by simp)
    have hth : trimHead (symbolsLineChars (s0 :: srest)) = some c :=
      trimHead_symbolsLine hcr hcws srest
    have htok : ∀ s ∈ s0 :: srest, IsToken s :=
      fun s hs => (valid_symbol_shape (hval s hs)).1
    have hwc : wordsContent (symbolsLineChars (s0 :: srest)) = s0 :: srest :=
      wc_symbolsLine _ htok
    simp only [parseSymbolsCounts, nextLine, except_bind_ok, hwc,
      nextWordOr, hth, hcd, Bool.false_eq_true, if_false]
    rw [wc_countsLine, parsedCountsPrefix_natRepr]
    rw [if_neg (by rw [hlen]; simp)]
    unfold finishCounts
    rw [if_neg hsum]

theorem parseFlags_selective (l2 : List Char) (ls : List (List Char)) :
    parseFlags ("Selective Dynamics".data :: l2 :: ls) =
      .ok ((true, hasDirectLine l2), ls) := rfl

theorem parseFlags_cartesian (ls : List (List Char)) :
    parseFlags ("Cartesian".data :: ls) = .ok ((false, false), ls) := rfl

theorem parseFlags_direct (ls : List (List Char)) :
    parseFlags ("Direct".data :: ls) = .ok ((false, true), ls) := rfl

theorem hasDirectLine_cartesian : hasDirectLine "Cartesian".data = false := rfl

theorem hasDirectLine_direct : hasDirectLine "Direct".data = true := rfl

theorem parseAtomLine_rt_none (v : V3) (h : V3.repOK v = true) :
    parseAtomLine false (atomLine v none) = .ok (v, none) := by
  unfold V3.repOK at h
  rw [Bool.and_eq_true, Bool.and_eq_true] at h
  obtain ⟨⟨h1, h2⟩, h3⟩ := h
  simp only [parseAtomLine, wc_atomLine_none, nextWordOr, except_bind_ok,
    parseRealWord, parseF64_printF64 _ h1, parseF64_printF64 _ h2,
    parseF64_printF64 _ h3, Bool.false_eq_true, if_false]
  rfl

theorem parseAtomLine_rt_some (v : V3) (d : B3) (h : V3.repOK v = true) :
    parseAtomLine true (atomLine v (some d)) = .ok (v, some d) := by
  unfold V3.repOK at h
  rw [Bool.and_eq_true, Bool.and_eq_true] at h
  obtain ⟨⟨h1, h2⟩, h3⟩ := h
  simp only [parseAtomLine, wc_atomLine_some, nextWordOr, except_bind_ok,
    parseRealWord, parseF64_printF64 _ h1, parseF64_printF64 _ h2,
    parseF64_printF64 _ h3, parseLogicalWord, parseLogical_logChar, if_true]
  rfl

theorem parsePositionsGo_rt_none (ps : List V3) (ls : List (List Char))
    (h : ps.all V3.repOK = true) :
    parsePositionsGo false ps.length (atomLines ps none ++ ls) =
      .ok ((ps, []), ls) := by
  induction ps with
  | nil => rfl
  | cons v ps ih =>
    rw [List.all_cons, Bool.and_eq_true] at h
    simp only [atomLines, List.map_cons, List.length_cons, List.cons_append]
    simp only [parsePositionsGo, nextLine, except_bind_ok,
      parseAtomLine_rt_none v h.1]
    have ih2 := ih h.2
    simp only [atomLines] at ih2
    simp only [ih2, except_bind_ok]

theorem parsePositionsGo_rt_some (ps : List V3) (ds : List B3)
    (ls : List (List Char)) (hlen : ps.length = ds.length)
    (h : ps.all V3.repOK = true) :
    parsePositionsGo true ps.length (atomLines ps (some ds) ++ ls) =
      .ok ((ps, ds), ls) := by
  induction ps generalizing ds with
  | nil =>
    match ds with
    | [] => rfl
    | _ :: _ => cases hlen
  | cons v ps ih =>
    match ds with
    | [] => cases hlen
    | d :: ds =>
      rw [List.all_cons, Bool.and_eq_true] at h
      simp only [atomLines, List.zip_cons_cons, List.map_cons,
        List.length_cons, List.cons_append]
      simp only [parsePositionsGo, nextLine, except_bind_ok,
        parseAtomLine_rt_some v d h.1]
      have ih2 := ih ds (by simpa using hlen) h.2
      simp only [atomLines] at ih2
      simp only [ih2, except_bind_ok]

-- --------------------------------------------------------------------------
-- The validator as the first failing check of the claimed ordered list.

theorem validateDynamics_eq (r : RawPoscar) :
    validateDynamics r r.group_counts.sum =
      (match checkDynamicsLen r with
       | some e => Except.error e
       | none => Except.ok ⟨r⟩) := by
  unfold validateDynamics checkDynamicsLen
  cases r.dynamics with
  | none => rfl
  | some d =>
    by_cases h : d.length = r.group_counts.sum
    · simp [h]
    · simp [h]

theorem validateLengths_eq (r : RawPoscar) :
    validateLengths r r.group_counts.sum =
      (match checkPositionsLen r with
       | some e => Except.error e
       | none =>
         match checkVelocitiesLen r with
         | some e => Except.error e
         | none =>
           match checkDynamicsLen r with
           | some e => Except.error e
           | none => Except.ok ⟨r⟩) := by
  unfold validateLengths checkPositionsLen checkVelocitiesLen
  by_cases hp : r.positions.rawData.length = r.group_counts.sum
  · rw [if_neg (by omega), if_pos hp]
    cases r.velocities with
    | none => exact validateDynamics_eq r
    | some v =>
      by_cases hv : v.rawData.length = r.group_counts.sum
      · simp only [hv, if_true, ne_eq, not_true_eq_false, if_false]
        exact validateDynamics_eq r
      · simp [hv]
  · rw [if_pos hp, if_neg hp]

theorem validateAfterGroups_eq (r : RawPoscar) :
    validateAfterGroups r =
      (match checkComment r with
       | some e => Except.error e
       | none =>
         match checkScale r with
         | some e => Except.error e
         | none =>
           match checkAtoms r with
           | some e => Except.error e
           | none =>
             match checkSymbols r with
             | some e => Except.error e
             | none =>
               match checkPositionsLen r with
               | some e => Except.error e
               | none =>
                 match checkVelocitiesLen r with
                 | some e => Except.error e
                 | none =>
                   match checkDynamicsLen r with
                   | some e => Except.error e
                   | none => Except.ok ⟨r⟩) := by
  unfold validateAfterGroups checkComment checkScale checkAtoms checkSymbols
  by_cases hn : r.comment.contains '\n' = true
  · rw [if_pos hn]
    have hn2 : '\n' ∈ r.comment := by simpa using hn
    simp [hn2]
  · rw [if_neg hn]
    by_cases hr2 : r.comment.contains '\r' = true
    · rw [if_pos hr2]
      have hr3 : '\r' ∈ r.comment := by simpa using hr2
      simp [hr3]
    · rw [if_neg hr2]
      simp only [Bool.not_eq_true] at hn hr2
      simp only [hn, hr2, Bool.or_self, Bool.false_eq_true, if_false]
      by_cases hs : r.scale.payload.gtZero = true
      · rw [if_neg (by simp [hs]), if_pos hs]
        by_cases ha : 0 < r.group_counts.sum
        · rw [if_neg (by simp [ha]), if_pos ha]
          cases hsym : r.group_symbols with
          | none => exact validateLengths_eq r
          | some syms =>
            cases hinv : firstInvalidSymbol syms with
            | some s => simp [hinv]
            | none =>
              by_cases hret : symbolsRetokenize syms = true
              · simp only [hinv, hret, Bool.not_true, Bool.false_eq_true,
                  if_false, if_true]
                exact validateLengths_eq r
              · simp only [Bool.not_eq_true] at hret
                simp [hinv, hret]
        · rw [if_pos (by simpa using ha), if_neg ha]
      · rw [if_pos (by simpa using hs), if_neg hs]

theorem validate_eq_stage1 (r : RawPoscar) :
    validate r =
      (match checkNumGroups r with
       | some e => Except.error e
       | none => validateAfterGroups r) := by
  unfold validate checkNumGroups
  cases hsym : r.group_symbols with
  | none => rfl
  | some syms =>
    by_cases hlen : r.group_counts.length = syms.length
    · simp [hlen]
    · simp [hlen]

theorem validate_eq_firstFailure (r : RawPoscar) :
    validate r =
      (match firstFailure r with
       | some e => Except.error e
       | none => Except.ok ⟨r⟩) := by
  rw [validate_eq_stage1 r]
  unfold firstFailure validationChecks
  simp only [List.findSome?_cons]
  cases checkNumGroups r
  · rw [validateAfterGroups_eq r]
    cases checkComment r
    · cases checkScale r
      · cases checkAtoms r
        · cases checkSymbols r
          · cases checkPositionsLen r
            · cases checkVelocitiesLen r
              · cases checkDynamicsLen r
                · simp [List.findSome?]
                · simp
              · simp
            · simp
          · simp
        · simp
      · simp
    · simp
  · simp


theorem validate_ok_inv {r : RawPoscar} {p : Poscar}
    (h : validate r = .ok p) : p = ⟨r⟩ ∧ firstFailure r = none := by
  rw [validate_eq_firstFailure] at h
  cases hf : firstFailure r with
  | some e => rw [hf] at h; cases h
  | none =>
    rw [hf] at h
    simp only [Except.ok.injEq] at h
    exact ⟨h.symm, rfl⟩

theorem firstFailure_none_checks {r : RawPoscar}
    (h : firstFailure r = none) :
    ∀ c ∈ validationChecks, c r = none := by
  unfold firstFailure at h
  rw [List.findSome?_eq_none_iff] at h
  exact h

theorem validate_ok_checks {r : RawPoscar} {p : Poscar}
    (h : validate r = .ok p) : ∀ c ∈ validationChecks, c r = none :=
  firstFailure_none_checks (validate_ok_inv h).2

theorem checkComment_none {r : RawPoscar} (h : checkComment r = none) :
    r.comment.contains '\n' = false ∧ r.comment.contains '\r' = false := by
  unfold checkComment at h
  by_cases h1 : r.comment.contains '\n' = true
  · rw [h1] at h; simp at h
  · by_cases h2 : r.comment.contains '\r' = true
    · rw [h2] at h; simp at h
    · exact ⟨by simpa using h1, by simpa using h2⟩

theorem checkScale_none {r : RawPoscar} (h : checkScale r = none) :
    r.scale.payload.gtZero = true := by
  unfold checkScale at h
  by_cases hs : r.scale.payload.gtZero = true
  · exact hs
  · rw [if_neg hs] at h; cases h

theorem checkAtoms_none {r : RawPoscar} (h : checkAtoms r = none) :
    0 < r.group_counts.sum := by
  unfold checkAtoms at h
  by_cases ha : 0 < r.group_counts.sum
  · exact ha
  · rw [if_neg ha] at h; cases h

theorem checkNumGroups_none {r : RawPoscar} {syms : List (List Char)}
    (hsym : r.group_symbols = some syms) (h : checkNumGroups r = none) :
    r.group_counts.length = syms.length := by
  unfold checkNumGroups at h
  rw [hsym] at h
  simp only [] at h
  split at h
  · assumption
  · cases h

theorem checkSymbols_none {r : RawPoscar} {syms : List (List Char)}
    (hsym : r.group_symbols = some syms) (h : checkSymbols r = none) :
    firstInvalidSymbol syms = none ∧ symbolsRetokenize syms = true := by
  unfold checkSymbols at h
  simp only [hsym] at h
  cases hinv : firstInvalidSymbol syms with
  | some s => simp only [hinv] at h; cases h
  | none =>
    simp only [hinv] at h
    by_cases hret : symbolsRetokenize syms = true
    · exact ⟨rfl, hret⟩
    · rw [if_neg hret] at h; cases h

theorem checkPositionsLen_none {r : RawPoscar}
    (h : checkPositionsLen r = none) :
    r.positions.rawData.length = r.group_counts.sum := by
  unfold checkPositionsLen at h
  by_cases hp : r.positions.rawData.length = r.group_counts.sum
  · exact hp
  · rw [if_neg hp] at h; cases h

theorem checkVelocitiesLen_none {r : RawPoscar} {v : Coords (List V3)}
    (hv : r.velocities = some v) (h : checkVelocitiesLen r = none) :
    v.rawData.length = r.group_counts.sum := by
  unfold checkVelocitiesLen at h
  simp only [hv] at h
  by_cases hl : v.rawData.length = r.group_counts.sum
  · exact hl
  · rw [if_neg hl] at h; cases h

theorem checkDynamicsLen_none {r : RawPoscar} {d : List B3}
    (hd : r.dynamics = some d) (h : checkDynamicsLen r = none) :
    d.length = r.group_counts.sum := by
  unfold checkDynamicsLen at h
  simp only [hd] at h
  by_cases hl : d.length = r.group_counts.sum
  · exact hl
  · rw [if_neg hl] at h; cases h

-- --------------------------------------------------------------------------
-- Splitting the written text back into lines.

theorem splitNL_line {l : List Char} (h : ∀ c ∈ l, ¬(c = '\n'))
    (rest : List Char) : splitNL (l ++ '\n' :: rest) = l :: splitNL rest := by
  induction l with
  | nil => simp [splitNL]
  | cons c l ih =>
    have hc : ¬(c = '\n') := h c (by simp)
    rw [List.cons_append]
    simp only [splitNL]
    rw [if_neg hc, ih (fun x hx => h x (by simp [hx]))]

theorem splitNL_joinLines (ls : List (List Char))
    (h : ∀ l ∈ ls, ∀ c ∈ l, ¬(c = '\n')) :
    splitNL (joinLines ls) = ls ++ [[]] := by
  induction ls with
  | nil => rfl
  | cons l ls ih =>
    have hjoin : joinLines (l :: ls) = l ++ '\n' :: joinLines ls := by
      unfold joinLines
      simp [List.append_assoc]
    rw [hjoin, splitNL_line (h l (by simp)), ih (fun x hx => h x (by simp [hx]))]
    rfl

theorem stripCR_no_cr {l : List Char} (h : ∀ c ∈ l, ¬(c = '\r')) :
    stripCR l = l := by
  unfold stripCR
  cases hl : l.getLast? with
  | none => rfl
  | some c =>
    have hc : c ∈ l := List.mem_of_mem_getLast? (by rw [hl]; rfl)
    have hcr : ¬(c = '\r') := h c hc
    split
    · rename_i heq
      injection heq with heq2
      exact absurd heq2 hcr
    · rfl

theorem linesOf_joinLines (ls : List (List Char))
    (hn : ∀ l ∈ ls, ∀ c ∈ l, ¬(c = '\n'))
    (hr : ∀ l ∈ ls, ∀ c ∈ l, ¬(c = '\r')) :
    linesOf (joinLines ls) = ls := by
  unfold linesOf
  rw [splitNL_joinLines ls hn]
  simp only [List.getLast?_concat, List.dropLast_concat]
  induction ls with
  | nil => rfl
  | cons l ls ih =>
    simp only [List.map_cons]
    rw [stripCR_no_cr (hr l (by simp))]
    congr 1
    exact ih (fun x hx => hn x (by simp [hx])) (fun x hx => hr x (by simp [hx]))

-- --------------------------------------------------------------------------
-- The rendered lines contain no line terminators.

theorem not_ws_ne_nl_cr {c : Char} (h : is_ascii_whitespace c = false) :
    ¬(c = '\n') ∧ ¬(c = '\r') := by
  constructor
  · intro hc; subst hc; cases h
  · intro hc; subst hc; cases h

theorem spacey_no_nl_cr {l : List Char}
    (h : ∀ c ∈ l, is_ascii_whitespace c = false ∨ c = ' ') :
    ∀ c ∈ l, ¬(c = '\n') ∧ ¬(c = '\r') := by
  intro c hc
  rcases h c hc with hws | hsp
  · exact not_ws_ne_nl_cr hws
  · subst hsp
    exact ⟨by decide, by decide⟩

theorem spacey_printF64 (v : F64) :
    ∀ c ∈ printF64 v, is_ascii_whitespace c = false ∨ c = ' ' :=
  fun c hc => Or.inl ((printF64_isToken v).2 c hc)

theorem spacey_nil : ∀ c ∈ ([] : List Char),
    is_ascii_whitespace c = false ∨ c = ' ' := by
  intro c hc
  cases hc

theorem spacey_append {a b : List Char}
    (ha : ∀ c ∈ a, is_ascii_whitespace c = false ∨ c = ' ')
    (hb : ∀ c ∈ b, is_ascii_whitespace c = false ∨ c = ' ') :
    ∀ c ∈ a ++ b, is_ascii_whitespace c = false ∨ c = ' ' := by
  intro c hc
  rcases List.mem_append.mp hc with h | h
  · exact ha c h
  · exact hb c h

theorem spacey_cons {x : Char} (hx : is_ascii_whitespace x = false ∨ x = ' ')
    {b : List Char}
    (hb : ∀ c ∈ b, is_ascii_whitespace c = false ∨ c = ' ') :
    ∀ c ∈ x :: b, is_ascii_whitespace c = false ∨ c = ' ' := by
  intro c hc
  rcases List.mem_cons.mp hc with rfl | h
  · exact hx
  · exact hb c h

theorem spacey_v3Tokens (v : V3) :
    ∀ c ∈ v3Tokens v, is_ascii_whitespace c = false ∨ c = ' ' :=
  spacey_append
    (spacey_append (spacey_printF64 _)
      (spacey_cons (Or.inr rfl) (spacey_printF64 _)))
    (spacey_cons (Or.inr rfl) (spacey_printF64 _))

theorem spacey_scaleLine (s : ScaleLine) :
    ∀ c ∈ scaleLineChars s, is_ascii_whitespace c = false ∨ c = ' ' := by
  cases s with
  | Factor x =>
    exact spacey_cons (Or.inr rfl) (spacey_cons (Or.inr rfl)
      (spacey_printF64 x))
  | Volume x =>
    exact spacey_cons (Or.inr rfl) (spacey_cons (Or.inr rfl)
      (spacey_cons (Or.inl (by decide)) (spacey_printF64 x)))

theorem spacey_latticeLine (row : V3) :
    ∀ c ∈ latticeLineChars row,
      is_ascii_whitespace c = false ∨ c = ' ' :=
  spacey_cons (Or.inr rfl) (spacey_cons (Or.inr rfl)
    (spacey_cons (Or.inr rfl) (spacey_cons (Or.inr rfl)
      (spacey_v3Tokens row))))

theorem spacey_flagTokens (d : B3) :
    ∀ c ∈ flagTokens d, is_ascii_whitespace c = false ∨ c = ' ' :=
  spacey_cons (Or.inl (logChar_not_ws _)) (spacey_cons (Or.inr rfl)
    (spacey_cons (Or.inl (logChar_not_ws _)) (spacey_cons (Or.inr rfl)
      (spacey_cons (Or.inl (logChar_not_ws _)) spacey_nil))))

theorem spacey_atomLine (v : V3) (dyn : Option B3) :
    ∀ c ∈ atomLine v dyn, is_ascii_whitespace c = false ∨ c = ' ' := by
  cases dyn with
  | none =>
    exact spacey_cons (Or.inr rfl) (spacey_cons (Or.inr rfl)
      (spacey_append (spacey_v3Tokens v) spacey_nil))
  | some d =>
    exact spacey_cons (Or.inr rfl) (spacey_cons (Or.inr rfl)
      (spacey_append (spacey_v3Tokens v)
        (spacey_cons (Or.inr rfl) (spacey_flagTokens d))))

theorem spacey_sepBySpace {ts : List (List Char)}
    (h : ∀ t ∈ ts, ∀ c ∈ t, is_ascii_whitespace c = false ∨ c = ' ') :
    ∀ c ∈ sepBySpace ts, is_ascii_whitespace c = false ∨ c = ' ' := by
  induction ts with
  | nil => intro c hc; cases hc
  | cons t ts ih =>
    intro c hc
    match ts with
    | [] =>
      simp only [sepBySpace] at hc
      exact h t (by simp) c hc
    | t2 :: ts2 =>
      have hstep : sepBySpace (t :: t2 :: ts2) =
          t ++ ' ' :: sepBySpace (t2 :: ts2) := rfl
      rw [hstep] at hc
      simp only [List.mem_append, List.mem_cons] at hc
      rcases hc with hc | rfl | hc
      · exact h t (by simp) c hc
      · exact Or.inr rfl
      · exact ih (fun x hx => h x (by simp [List.mem_cons] at hx ⊢; tauto)) c hc

theorem spacey_pad2 {t : List Char}
    (h : ∀ c ∈ t, is_ascii_whitespace c = false ∨ c = ' ') :
    ∀ c ∈ pad2 t, is_ascii_whitespace c = false ∨ c = ' ' := by
  intro c hc
  rw [pad2_eq] at hc
  simp only [List.mem_append] at hc
  rcases hc with hc | hc
  · exact Or.inr (List.eq_of_mem_replicate hc)
  · exact h c hc

theorem spacey_countsLine (counts : List Nat) :
    ∀ c ∈ countsLineChars counts,
      is_ascii_whitespace c = false ∨ c = ' ' := by
  intro c hc
  unfold countsLineChars at hc
  simp only [List.mem_cons] at hc
  rcases hc with rfl | rfl | hc
  · exact Or.inr rfl
  · exact Or.inr rfl
  · refine spacey_sepBySpace ?_ c hc
    intro t ht
    rw [List.mem_map] at ht
    obtain ⟨n, _, rfl⟩ := ht
    exact spacey_pad2 (fun x hx => Or.inl ((natRepr_isToken n).2 x hx))

theorem spacey_symbolsLine {syms : List (List Char)}
    (h : ∀ s ∈ syms, IsToken s) :
    ∀ c ∈ symbolsLineChars syms,
      is_ascii_whitespace c = false ∨ c = ' ' := by
  intro c hc
  unfold symbolsLineChars at hc
  simp only [List.mem_cons] at hc
  rcases hc with rfl | rfl | hc
  · exact Or.inr rfl
  · exact Or.inr rfl
  · refine spacey_sepBySpace ?_ c hc
    intro t ht
    rw [List.mem_map] at ht
    obtain ⟨s, hs, rfl⟩ := ht
    exact spacey_pad2 (fun x hx => Or.inl ((h s hs).2 x hx))

theorem comment_no_nl_cr {r : RawPoscar}
    (hn : r.comment.contains '\n' = false)
    (hr : r.comment.contains '\r' = false) :
    ∀ c ∈ r.comment, ¬(c = '\n') ∧ ¬(c = '\r') := by
  intro c hc
  constructor
  · intro h
    subst h
    have := List.elem_eq_true_of_mem hc
    rw [List.contains] at hn
    rw [this] at hn
    cases hn
  · intro h
    subst h
    have := List.elem_eq_true_of_mem hc
    rw [List.contains] at hr
    rw [this] at hr
    cases hr

theorem scale_shape {s : ScaleLine} (h : s.payload.gtZero = true) :
    ∃ q : ℚ, 0 < q ∧ (s = .Factor (.fin q) ∨ s = .Volume (.fin q)) := by
  cases s with
  | Factor x =>
    cases x with
    | nan => cases h
    | fin q => exact ⟨q, by simpa [ScaleLine.payload, F64.gtZero] using h, Or.inl rfl⟩
  | Volume x =>
    cases x with
    | nan => cases h
    | fin q => exact ⟨q, by simpa [ScaleLine.payload, F64.gtZero] using h, Or.inr rfl⟩

theorem lineOK_atomLines (ps : List V3) (dyn : Option (List B3)) :
    ∀ l ∈ atomLines ps dyn, ∀ c ∈ l, ¬(c = '\n') ∧ ¬(c = '\r') := by
  intro l hl
  unfold atomLines at hl
  cases dyn with
  | none =>
    rw [List.mem_map] at hl
    obtain ⟨v, _, rfl⟩ := hl
    exact spacey_no_nl_cr (spacey_atomLine v none)
  | some ds =>
    rw [List.mem_map] at hl
    obtain ⟨vd, _, rfl⟩ := hl
    exact spacey_no_nl_cr (spacey_atomLine vd.1 (some vd.2))

theorem lineOK_selLine :
    ∀ c ∈ "Selective Dynamics".data, ¬(c = '\n') ∧ ¬(c = '\r') := by
  decide

theorem lineOK_cartLine :
    ∀ c ∈ "Cartesian".data, ¬(c = '\n') ∧ ¬(c = '\r') := by
  decide

theorem lineOK_directLine :
    ∀ c ∈ "Direct".data, ¬(c = '\n') ∧ ¬(c = '\r') := by
  decide

theorem counts_ne_nil {r : RawPoscar} (h : 0 < r.group_counts.sum) :
    r.group_counts ≠ [] := by
  intro hc
  rw [hc] at h
  simp at h

theorem lineOK_displayLines (p : Poscar)
    (hcom : forall c, c ∈ p.raw.comment → ¬(c = '\n') ∧ ¬(c = '\r'))
    (hvel : p.raw.velocities = none)
    (hsyms : ∀ s ∈ p.raw.group_symbols.getD [], IsToken s) :
    ∀ l ∈ displayLines p, ∀ c ∈ l, ¬(c = '\n') ∧ ¬(c = '\r') := by
  intro l hl
  simp only [displayLines, hvel, List.append_nil, List.mem_append] at hl
  rcases hl with ((((hl | hl) | hl) | hl) | hl) | hl
  · simp only [List.mem_cons, List.not_mem_nil, or_false] at hl
    rcases hl with rfl | rfl | rfl | rfl | rfl
    · exact fun c hc => hcom c hc
    · exact spacey_no_nl_cr (spacey_scaleLine _)
    · exact spacey_no_nl_cr (spacey_latticeLine _)
    · exact spacey_no_nl_cr (spacey_latticeLine _)
    · exact spacey_no_nl_cr (spacey_latticeLine _)
  · cases hsym : p.raw.group_symbols with
    | none => simp [hsym] at hl
    | some syms =>
      rw [hsym] at hsyms
      simp only [hsym, List.mem_singleton] at hl
      subst hl
      exact spacey_no_nl_cr (spacey_symbolsLine (by simpa using hsyms))
  · simp only [List.mem_singleton] at hl
    subst hl
    exact spacey_no_nl_cr (spacey_countsLine _)
  · cases hdyn : p.raw.dynamics with
    | none => simp [hdyn] at hl
    | some ds =>
      simp only [hdyn, List.mem_singleton] at hl
      subst hl
      exact lineOK_selLine
  · simp only [List.mem_singleton] at hl
    cases hpos : p.raw.positions with
    | Cart ps => simp only [hpos] at hl; subst hl; exact lineOK_cartLine
    | Frac ps => simp only [hpos] at hl; subst hl; exact lineOK_directLine
  · exact lineOK_atomLines _ _ l hl

theorem roundtrip_core {r : RawPoscar} {p : Poscar}
    (hval : validate r = .ok p) (hvel : r.velocities = none)
    (hrep : r.floatsRepresentable = true) :
    fromText (displayText p) = .ok p := by
  obtain ⟨hp, hff⟩ := validate_ok_inv hval
  subst hp
  obtain ⟨com, sc, lat, gs, gc, pos, vel, dyn⟩ := r
  have hvel2 : vel = none := hvel
  subst hvel2
  have hch := firstFailure_none_checks hff
  have hcomc : com.contains '\n' = false ∧ com.contains '\r' = false :=
    checkComment_none (hch checkComment (by simp [validationChecks]))
  have hsc : sc.payload.gtZero = true :=
    checkScale_none (hch checkScale (by simp [validationChecks]))
  have hat : 0 < gc.sum :=
    checkAtoms_none (hch checkAtoms (by simp [validationChecks]))
  have hpl : pos.rawData.length = gc.sum :=
    checkPositionsLen_none (hch checkPositionsLen (by simp [validationChecks]))
  have hrep2 : sc.payload.repOK = true ∧
      (V3.repOK lat.1 = true ∧ V3.repOK lat.2.1 = true ∧
        V3.repOK lat.2.2 = true) ∧
      pos.rawData.all V3.repOK = true := by
    simp only [RawPoscar.floatsRepresentable, Bool.and_eq_true,
      Bool.and_true] at hrep
    tauto
  obtain ⟨hrs, ⟨hlat1, hlat2, hlat3⟩, hrp⟩ := hrep2
  obtain ⟨q, hq, hsf⟩ := scale_shape hsc
  have hrq : repOK q = true := by
    rcases hsf with hsf | hsf <;>
      · rw [hsf] at hrs
        simpa [ScaleLine.payload, F64.repOK] using hrs
  have hscale : ∀ ls, parseScale (scaleLineChars sc :: ls) = .ok (sc, ls) := by
    intro ls
    rcases hsf with hsf | hsf <;> subst hsf
    · exact parseScale_rt_factor hq hrq ls
    · exact parseScale_rt_volume hq hrq ls
  have hcne : gc ≠ [] := by
    intro h
    rw [h] at hat
    simp at hat
  have hsum0 : gc.sum ≠ 0 := hat.ne'
  have hsymtok : ∀ s ∈ gs.getD [], IsToken s := by
    cases hgs : gs with
    | none => intro s hs; simp at hs
    | some syms =>
      have hsv := firstInvalid_none_valid (checkSymbols_none hgs
        (hch checkSymbols (by simp [validationChecks]))).1
      intro s hs
      exact (valid_symbol_shape (hsv s (by simpa using hs))).1
  have hOK := lineOK_displayLines ⟨⟨com, sc, lat, gs, gc, pos, none, dyn⟩⟩
    (comment_no_nl_cr hcomc.1 hcomc.2) rfl hsymtok
  unfold fromText
  rw [show displayText ⟨⟨com, sc, lat, gs, gc, pos, none, dyn⟩⟩ =
      joinLines (displayLines ⟨⟨com, sc, lat, gs, gc, pos, none, dyn⟩⟩)
    from rfl]
  rw [linesOf_joinLines _ (fun l hl c hc => (hOK l hl c hc).1)
      (fun l hl c hc => (hOK l hl c hc).2)]
  have hfC : ∀ ls : List (List Char),
      parseFlags (['C', 'a', 'r', 't', 'e', 's', 'i', 'a', 'n'] :: ls) =
        .ok ((false, false), ls) :=
    fun ls => parseFlags_cartesian ls
  have hfD : ∀ ls : List (List Char),
      parseFlags (['D', 'i', 'r', 'e', 'c', 't'] :: ls) =
        .ok ((false, true), ls) :=
    fun ls => parseFlags_direct ls
  have hfS : ∀ (l2 : List Char) (ls : List (List Char)),
      parseFlags (['S', 'e', 'l', 'e', 'c', 't', 'i', 'v', 'e', ' ',
          'D', 'y', 'n', 'a', 'm', 'i', 'c', 's'] :: l2 :: ls) =
        .ok ((true, hasDirectLine l2), ls) :=
    fun l2 ls => parseFlags_selective l2 ls
  have hdC : hasDirectLine ['C', 'a', 'r', 't', 'e', 's', 'i', 'a', 'n'] =
      false := rfl
  have hdD : hasDirectLine ['D', 'i', 'r', 'e', 'c', 't'] = true := rfl
  rcases pos with ps | ps <;>
    simp only [Coords.rawData] at hpl hrp <;>
    rcases gs with _ | syms
  · -- Cartesian, no symbols
    rcases dyn with _ | ds
    · have hgo := parsePositionsGo_rt_none ps [] hrp
      rw [List.append_nil, hpl] at hgo
      simp only [displayLines, Coords.rawData, List.cons_append,
        List.nil_append, List.append_nil, List.singleton_append,
        List.append_assoc]
      simp only [fromLines, nextLine, except_bind_ok, hscale,
        parseLattice_rt lat hlat1 hlat2 hlat3,
        parseSymbolsCounts_rt_none gc hcne hsum0,
        hfC, hgo, checkTrailing, Bool.false_eq_true,
        if_false]
      rw [hval]
    · have hdl : ds.length = gc.sum :=
        checkDynamicsLen_none rfl
          (hch checkDynamicsLen (by simp [validationChecks]))
      have hgo := parsePositionsGo_rt_some ps ds [] (hpl.trans hdl.symm) hrp
      rw [List.append_nil, hpl] at hgo
      simp only [displayLines, Coords.rawData, List.cons_append,
        List.nil_append, List.append_nil, List.singleton_append,
        List.append_assoc]
      simp only [fromLines, nextLine, except_bind_ok, hscale,
        parseLattice_rt lat hlat1 hlat2 hlat3,
        parseSymbolsCounts_rt_none gc hcne hsum0,
        hfS, hdC, hgo, checkTrailing,
        Bool.false_eq_true, if_false, eq_self_iff_true, if_true]
      rw [hval]
  · -- Cartesian, symbols present
    have hlen2 : gc.length = syms.length :=
      checkNumGroups_none rfl (hch checkNumGroups (by simp [validationChecks]))
    have hsv := firstInvalid_none_valid (checkSymbols_none rfl
      (hch checkSymbols (by simp [validationChecks]))).1
    have hsne : syms ≠ [] := by
      intro h
      subst h
      simp only [List.length_nil] at hlen2
      exact hcne (List.length_eq_zero.mp hlen2)
    rcases dyn with _ | ds
    · have hgo := parsePositionsGo_rt_none ps [] hrp
      rw [List.append_nil, hpl] at hgo
      simp only [displayLines, Coords.rawData, List.cons_append,
        List.nil_append, List.append_nil, List.singleton_append,
        List.append_assoc]
      simp only [fromLines, nextLine, except_bind_ok, hscale,
        parseLattice_rt lat hlat1 hlat2 hlat3,
        parseSymbolsCounts_rt_some syms gc hsv hsne hlen2.symm hsum0,
        hfC, hgo, checkTrailing, Bool.false_eq_true,
        if_false]
      rw [hval]
    · have hdl : ds.length = gc.sum :=
        checkDynamicsLen_none rfl
          (hch checkDynamicsLen (by simp [validationChecks]))
      have hgo := parsePositionsGo_rt_some ps ds [] (hpl.trans hdl.symm) hrp
      rw [List.append_nil, hpl] at hgo
      simp only [displayLines, Coords.rawData, List.cons_append,
        List.nil_append, List.append_nil, List.singleton_append,
        List.append_assoc]
      simp only [fromLines, nextLine, except_bind_ok, hscale,
        parseLattice_rt lat hlat1 hlat2 hlat3,
        parseSymbolsCounts_rt_some syms gc hsv hsne hlen2.symm hsum0,
        hfS, hdC, hgo, checkTrailing,
        Bool.false_eq_true, if_false, eq_self_iff_true, if_true]
      rw [hval]
  · -- Direct, no symbols
    rcases dyn with _ | ds
    · have hgo := parsePositionsGo_rt_none ps [] hrp
      rw [List.append_nil, hpl] at hgo
      simp only [displayLines, Coords.rawData, List.cons_append,
        List.nil_append, List.append_nil, List.singleton_append,
        List.append_assoc]
      simp only [fromLines, nextLine, except_bind_ok, hscale,
        parseLattice_rt lat hlat1 hlat2 hlat3,
        parseSymbolsCounts_rt_none gc hcne hsum0,
        hfD, hgo, checkTrailing, Bool.false_eq_true,
        if_false, eq_self_iff_true, if_true]
      rw [hval]
    · have hdl : ds.length = gc.sum :=
        checkDynamicsLen_none rfl
          (hch checkDynamicsLen (by simp [validationChecks]))
      have hgo := parsePositionsGo_rt_some ps ds [] (hpl.trans hdl.symm) hrp
      rw [List.append_nil, hpl] at hgo
      simp only [displayLines, Coords.rawData, List.cons_append,
        List.nil_append, List.append_nil, List.singleton_append,
        List.append_assoc]
      simp only [fromLines, nextLine, except_bind_ok, hscale,
        parseLattice_rt lat hlat1 hlat2 hlat3,
        parseSymbolsCounts_rt_none gc hcne hsum0,
        hfS, hdD, hgo, checkTrailing,
        Bool.false_eq_true, if_false, eq_self_iff_true, if_true]
      rw [hval]
  · -- Direct, symbols present
    have hlen2 : gc.length = syms.length :=
      checkNumGroups_none rfl (hch checkNumGroups (by simp [validationChecks]))
    have hsv := firstInvalid_none_valid (checkSymbols_none rfl
      (hch checkSymbols (by simp [validationChecks]))).1
    have hsne : syms ≠ [] := by
      intro h
      subst h
      simp only [List.length_nil] at hlen2
      exact hcne (List.length_eq_zero.mp hlen2)
    rcases dyn with _ | ds
    · have hgo := parsePositionsGo_rt_none ps [] hrp
      rw [List.append_nil, hpl] at hgo
      simp only [displayLines, Coords.rawData, List.cons_append,
        List.nil_append, List.append_nil, List.singleton_append,
        List.append_assoc]
      simp only [fromLines, nextLine, except_bind_ok, hscale,
        parseLattice_rt lat hlat1 hlat2 hlat3,
        parseSymbolsCounts_rt_some syms gc hsv hsne hlen2.symm hsum0,
        hfD, hgo, checkTrailing, Bool.false_eq_true,
        if_false, eq_self_iff_true, if_true]
      rw [hval]
    · have hdl : ds.length = gc.sum :=
        checkDynamicsLen_none rfl
          (hch checkDynamicsLen (by simp [validationChecks]))
      have hgo := parsePositionsGo_rt_some ps ds [] (hpl.trans hdl.symm) hrp
      rw [List.append_nil, hpl] at hgo
      simp only [displayLines, Coords.rawData, List.cons_append,
        List.nil_append, List.append_nil, List.singleton_append,
        List.append_assoc]
      simp only [fromLines, nextLine, except_bind_ok, hscale,
        parseLattice_rt lat hlat1 hlat2 hlat3,
        parseSymbolsCounts_rt_some syms gc hsv hsne hlen2.symm hsum0,
        hfS, hdD, hgo, checkTrailing,
        Bool.false_eq_true, if_false, eq_self_iff_true, if_true]
      rw [hval]

-- --------------------------------------------------------------------------
-- The scanning tokenizer agrees with the maximal-run reference tokenizer.

theorem words_shift (cs : List Char) :
    (∀ i k, wordsBetween (i + k) cs =
      (wordsBetween i cs).map (fun p => (p.1 + k, p.2))) ∧
    (∀ s a i k, wordsInWord (s + k) a (i + k) cs =
      (wordsInWord s a i cs).map (fun p => (p.1 + k, p.2))) := by
  induction cs with
  | nil =>
    refine ⟨fun i k => rfl, fun s a i k => ?_⟩
    simp [wordsInWord]
  | cons c cs ih =>
    constructor
    · intro i k
      rw [wordsBetween, wordsBetween]
      by_cases h : is_ascii_whitespace c = true
      · simp only [h, if_true]
        have harith : i + k + 1 = (i + 1) + k := by omega
        rw [harith]
        exact ih.1 (i + 1) k
      · simp only [h, if_false]
        have harith : i + k + 1 = (i + 1) + k := by omega
        rw [harith]
        exact ih.2 i [c] (i + 1) k
    · intro s a i k
      rw [wordsInWord, wordsInWord]
      by_cases h : is_ascii_whitespace c = true
      · simp only [h, if_true, List.map_cons]
        have harith : i + k + 1 = (i + 1) + k := by omega
        rw [harith, ih.1 (i + 1) k]
      · simp only [h, if_false]
        have harith : i + k + 1 = (i + 1) + k := by omega
        rw [harith]
        exact ih.2 s (c :: a) (i + 1) k

theorem wordsInWord_split (cs : List Char) : ∀ s acc i,
    wordsInWord s acc i cs =
      (s, acc.reverse ++ cs.takeWhile (fun c => !is_ascii_whitespace c)) ::
        wordsBetween
          (i + (cs.takeWhile (fun c => !is_ascii_whitespace c)).length)
          (cs.dropWhile (fun c => !is_ascii_whitespace c)) := by
  induction cs with
  | nil => intro s acc i; simp [wordsInWord, wordsBetween]
  | cons c cs ih =>
    intro s acc i
    rw [wordsInWord]
    by_cases h : is_ascii_whitespace c = true
    · rw [if_pos h]
      simp only [List.takeWhile_cons, List.dropWhile_cons, h,
        Bool.not_true, Bool.false_eq_true, if_false, List.append_nil,
        List.length_nil, Nat.add_zero]
      rw [wordsBetween, if_pos h]
    · rw [if_neg h]
      rw [ih s (c :: acc) (i + 1)]
      have hb : (!is_ascii_whitespace c) = true := by
        simp [h]
      simp only [List.takeWhile_cons, List.dropWhile_cons, hb, if_true,
        List.reverse_cons, List.length_cons]
      have harith : i + 1 + (cs.takeWhile (fun c => !is_ascii_whitespace c)).length =
          i + ((cs.takeWhile (fun c => !is_ascii_whitespace c)).length + 1) := by
        omega
      rw [harith]
      simp [List.append_assoc]

theorem filter_map_succ (l : List ℕ) (p : ℕ → Bool) :
    (l.map (fun i => i + 1)).filter p =
      (l.filter (fun i => p (i + 1))).map (fun i => i + 1) := by
  induction l with
  | nil => rfl
  | cons a l ih =>
    by_cases h : p (a + 1) = true <;>
      simp [List.filter_cons, h, ih]

theorem isWordStart_zero_ws {a : Char} (h : is_ascii_whitespace a = true)
    (cs : List Char) : isWordStart (a :: cs) 0 = false := by
  simp [isWordStart, h]

theorem isWordStart_zero_nonws {a : Char} (h : is_ascii_whitespace a = false)
    (cs : List Char) : isWordStart (a :: cs) 0 = true := by
  simp [isWordStart, h]

theorem isWordStart_succ_ws {a : Char} (h : is_ascii_whitespace a = true)
    (cs : List Char) (i : Nat) :
    isWordStart (a :: cs) (i + 1) = isWordStart cs i := by
  cases i with
  | zero =>
    show isWordStart (a :: cs) 1 = isWordStart cs 0
    cases cs with
    | nil => rfl
    | cons b cs => simp [isWordStart, h]
  | succ j =>
    show isWordStart (a :: cs) (j + 2) = isWordStart cs (j + 1)
    simp only [isWordStart]
    have h1 : (a :: cs).get? (j + 2) = cs.get? (j + 1) := rfl
    have h2 : (a :: cs).get? (j + 2 - 1) = cs.get? (j + 1 - 1) := rfl
    rw [h1, h2]
    cases cs.get? (j + 1) with
    | none => rfl
    | some c => simp

theorem isWordStart_succ_nonws {a : Char} (h : is_ascii_whitespace a = false)
    (cs : List Char) (i : Nat) :
    isWordStart (a :: cs) (i + 1) =
      (!decide (i = 0) && isWordStart cs i) := by
  cases i with
  | zero =>
    show isWordStart (a :: cs) 1 = _
    simp only [decide_True, Bool.not_true, Bool.false_and]
    cases cs with
    | nil => rfl
    | cons b cs => simp [isWordStart, h]
  | succ j =>
    show isWordStart (a :: cs) (j + 2) = _
    simp only [Nat.succ_ne_zero, decide_False, Bool.not_false, Bool.true_and]
    simp only [isWordStart]
    have h1 : (a :: cs).get? (j + 2) = cs.get? (j + 1) := rfl
    have h2 : (a :: cs).get? (j + 2 - 1) = cs.get? (j + 1 - 1) := rfl
    rw [h1, h2]
    cases cs.get? (j + 1) with
    | none => rfl
    | some c => simp

theorem runAt_cons_succ (a : Char) (cs : List Char) (i : Nat) :
    runAt (a :: cs) (i + 1) = runAt cs i := rfl

theorem runAt_cons_nonws {a : Char} (h : is_ascii_whitespace a = false)
    (cs : List Char) :
    runAt (a :: cs) 0 = a :: cs.takeWhile (fun c => !is_ascii_whitespace c) := by
  simp [runAt, List.takeWhile_cons, h]

theorem wordsSpec_cons (a : Char) (cs : List Char) :
    wordsSpec (a :: cs) =
      (if isWordStart (a :: cs) 0 then [(0, runAt (a :: cs) 0)] else []) ++
      ((List.range cs.length).filter
          (fun i => isWordStart (a :: cs) (i + 1))).map
        (fun i => (i + 1, runAt cs i)) := by
  have hmap : ∀ l : List ℕ,
      l.map ((fun i => (i, runAt (a :: cs) i)) ∘ (fun i => i + 1)) =
      l.map (fun i => (i + 1, runAt cs i)) := by
    intro l
    apply List.map_congr_left
    intro i hi
    simp [Function.comp, runAt_cons_succ]
  unfold wordsSpec
  rw [List.length_cons, List.range_succ_eq_map, List.filter_cons]
  have hsucc : List.map Nat.succ (List.range cs.length) =
      (List.range cs.length).map (fun i => i + 1) := by
    simp [Nat.succ_eq_add_one]
  rw [hsucc, filter_map_succ]
  by_cases h0 : isWordStart (a :: cs) 0 = true
  · rw [if_pos h0, if_pos h0, List.map_cons, List.map_map, hmap,
      List.singleton_append]
  · rw [if_neg h0, if_neg h0, List.map_map, hmap, List.nil_append]

theorem wordsSpec_cons_ws {a : Char} (h : is_ascii_whitespace a = true)
    (cs : List Char) :
    wordsSpec (a :: cs) = (wordsSpec cs).map (fun p => (p.1 + 1, p.2)) := by
  rw [wordsSpec_cons, isWordStart_zero_ws h]
  simp only [Bool.false_eq_true, if_false, List.nil_append]
  have hpred : (fun i => isWordStart (a :: cs) (i + 1)) = isWordStart cs :=
    funext (fun i => isWordStart_succ_ws h cs i)
  rw [hpred]
  unfold wordsSpec
  rw [List.map_map]
  apply List.map_congr_left
  intro i hi
  simp [Function.comp]

theorem wordsSpec_posStarts (cs : List Char) :
    ((List.range cs.length).filter
        (fun i => !decide (i = 0) && isWordStart cs i)).map
      (fun i => (i, runAt cs i)) =
    (wordsSpec (cs.dropWhile (fun c => !is_ascii_whitespace c))).map
      (fun p => (p.1 + (cs.takeWhile (fun c => !is_ascii_whitespace c)).length,
        p.2)) := by
  induction cs with
  | nil => rfl
  | cons c cs ih =>
    by_cases h : is_ascii_whitespace c = true
    · have hb : (!is_ascii_whitespace c) = false := by simp [h]
      simp only [List.takeWhile_cons, List.dropWhile_cons, hb,
        Bool.false_eq_true, if_false, List.length_nil]
      have hfeq : ((List.range (c :: cs).length).filter
          (fun i => !decide (i = 0) && isWordStart (c :: cs) i)) =
          ((List.range (c :: cs).length).filter (isWordStart (c :: cs))) := by
        apply List.filter_congr
        intro i hi
        cases i with
        | zero => simp [isWordStart_zero_ws h]
        | succ j => simp
      rw [hfeq]
      unfold wordsSpec
      simp
    · have h2 : is_ascii_whitespace c = false := by simpa using h
      have hb : (!is_ascii_whitespace c) = true := by simp [h]
      simp only [List.takeWhile_cons, List.dropWhile_cons, hb, if_true,
        List.length_cons]
      rw [List.range_succ_eq_map, List.filter_cons]
      simp only [decide_True, Bool.not_true, Bool.false_and,
        Bool.false_eq_true, if_false]
      have hsucc : List.map Nat.succ (List.range cs.length) =
          (List.range cs.length).map (fun i => i + 1) := by
        simp [Nat.succ_eq_add_one]
      rw [hsucc, filter_map_succ]
      have hpred : (fun i => !decide (i + 1 = 0) &&
          isWordStart (c :: cs) (i + 1)) =
          (fun i => !decide (i = 0) && isWordStart cs i) := by
        funext i
        simp only [Nat.succ_ne_zero, decide_False, Bool.not_false,
          Bool.true_and]
        exact isWordStart_succ_nonws h2 cs i
      rw [hpred, List.map_map]
      have hstep : ((List.range cs.length).filter
            (fun i => !decide (i = 0) && isWordStart cs i)).map
          ((fun i => (i, runAt (c :: cs) i)) ∘ (fun i => i + 1)) =
          (((List.range cs.length).filter
            (fun i => !decide (i = 0) && isWordStart cs i)).map
          (fun i => (i, runAt cs i))).map (fun p => (p.1 + 1, p.2)) := by
        rw [List.map_map]
        apply List.map_congr_left
        intro i hi
        simp [Function.comp, runAt_cons_succ]
      rw [hstep, ih, List.map_map]
      apply List.map_congr_left
      intro p hp
      simp [Function.comp]
      omega

theorem wordsSpec_cons_token {x : Char} (h : is_ascii_whitespace x = false)
    (cs : List Char) :
    wordsSpec (x :: cs) =
      (0, x :: cs.takeWhile (fun c => !is_ascii_whitespace c)) ::
      (wordsSpec (cs.dropWhile (fun c => !is_ascii_whitespace c))).map
        (fun p =>
          (p.1 + ((cs.takeWhile (fun c => !is_ascii_whitespace c)).length + 1),
            p.2)) := by
  rw [wordsSpec_cons, isWordStart_zero_nonws h, if_pos rfl,
    runAt_cons_nonws h, List.singleton_append]
  congr 1
  have hpred : (fun i => isWordStart (x :: cs) (i + 1)) =
      (fun i => !decide (i = 0) && isWordStart cs i) :=
    funext (fun i => isWordStart_succ_nonws h cs i)
  rw [hpred]
  have hstep : ((List.range cs.length).filter
        (fun i => !decide (i = 0) && isWordStart cs i)).map
      (fun i => (i + 1, runAt cs i)) =
      (((List.range cs.length).filter
        (fun i => !decide (i = 0) && isWordStart cs i)).map
      (fun i => (i, runAt cs i))).map (fun p => (p.1 + 1, p.2)) := by
    rw [List.map_map]
    apply List.map_congr_left
    intro i hi
    simp [Function.comp]
  rw [hstep, wordsSpec_posStarts, List.map_map]
  apply List.map_congr_left
  intro p hp
  simp [Function.comp]
  omega

theorem words_eq_wordsSpec (cs : List Char) : words cs = wordsSpec cs := by
  suffices hgen : ∀ (n : Nat) (l : List Char), l.length = n →
      words l = wordsSpec l from hgen cs.length cs rfl
  intro n
  induction n using Nat.strong_induction_on with
  | _ n ih =>
  intro cs hn
  cases cs with
  | nil => rfl
  | cons c cs =>
    by_cases h : is_ascii_whitespace c = true
    · have h1 : words (c :: cs) =
          (words cs).map (fun p => (p.1 + 1, p.2)) := by
        show wordsBetween 0 (c :: cs) = _
        rw [wordsBetween, if_pos h]
        have := (words_shift cs).1 0 1
        simpa using this
      rw [h1, wordsSpec_cons_ws h cs,
        ih cs.length (by rw [← hn]; simp) cs rfl]
    · have h2 : is_ascii_whitespace c = false := by simpa using h
      have h1 : words (c :: cs) =
          (0, c :: cs.takeWhile (fun c => !is_ascii_whitespace c)) ::
          (words (cs.dropWhile (fun c => !is_ascii_whitespace c))).map
            (fun p =>
              (p.1 + ((cs.takeWhile (fun c => !is_ascii_whitespace c)).length
                + 1), p.2)) := by
        show wordsBetween 0 (c :: cs) = _
        rw [wordsBetween, if_neg h, wordsInWord_split cs 0 [c] 1]
        congr 1
        have harith :
            1 + (cs.takeWhile (fun c => !is_ascii_whitespace c)).length =
            0 + ((cs.takeWhile (fun c => !is_ascii_whitespace c)).length
              + 1) := by
          omega
        rw [harith]
        exact (words_shift _).1 0 _
      rw [h1, wordsSpec_cons_token h2 cs,
        ih (cs.dropWhile (fun c => !is_ascii_whitespace c)).length
          (by
            rw [← hn]
            simp only [List.length_cons]
            exact Nat.lt_succ_of_le
              (List.Sublist.length_le (List.dropWhile_sublist _)))
          (cs.dropWhile (fun c => !is_ascii_whitespace c)) rfl]

-- --------------------------------------------------------------------------
-- The possible outputs of each validation check.

theorem checkNumGroups_shape (r : RawPoscar) :
    checkNumGroups r = none ∨
      checkNumGroups r = some .InconsistentNumGroups := by
  cases h : r.group_symbols with
  | none => exact Or.inl (by simp [checkNumGroups, h])
  | some syms =>
    by_cases h2 : r.group_counts.length = syms.length
    · exact Or.inl (by simp [checkNumGroups, h, h2])
    · exact Or.inr (by simp [checkNumGroups, h, h2])

theorem checkComment_shape (r : RawPoscar) :
    checkComment r = none ∨ checkComment r = some .NewlineInComment := by
  unfold checkComment
  split
  · exact Or.inr rfl
  · exact Or.inl rfl

theorem checkScale_shape (r : RawPoscar) :
    checkScale r = none ∨ checkScale r = some .BadScaleLine := by
  unfold checkScale
  split
  · exact Or.inl rfl
  · exact Or.inr rfl

theorem checkAtoms_shape (r : RawPoscar) :
    checkAtoms r = none ∨ checkAtoms r = some .NoAtoms := by
  unfold checkAtoms
  split
  · exact Or.inl rfl
  · exact Or.inr rfl

theorem checkSymbols_shape (r : RawPoscar) :
    checkSymbols r = none ∨
      ∃ o, checkSymbols r = some (.InvalidSymbol o) := by
  cases h : r.group_symbols with
  | none => exact Or.inl (by simp [checkSymbols, h])
  | some syms =>
    cases hinv : firstInvalidSymbol syms with
    | some s => exact Or.inr ⟨some s, by simp [checkSymbols, h, hinv]⟩
    | none =>
      by_cases hret : symbolsRetokenize syms = true
      · exact Or.inl (by simp [checkSymbols, h, hinv, hret])
      · exact Or.inr ⟨none, by simp [checkSymbols, h, hinv, hret]⟩

theorem checkPositionsLen_shape (r : RawPoscar) :
    checkPositionsLen r = none ∨
      checkPositionsLen r =
        some (.WrongLength "positions".data r.group_counts.sum) := by
  unfold checkPositionsLen
  split
  · exact Or.inl rfl
  · exact Or.inr rfl

theorem checkVelocitiesLen_shape (r : RawPoscar) :
    checkVelocitiesLen r = none ∨
      checkVelocitiesLen r =
        some (.WrongLength "velocities".data r.group_counts.sum) := by
  unfold checkVelocitiesLen
  cases r.velocities with
  | none => exact Or.inl rfl
  | some v =>
    by_cases hl : v.rawData.length = r.group_counts.sum
    · exact Or.inl (by simp [hl])
    · exact Or.inr (by simp [hl])

theorem checkDynamicsLen_shape (r : RawPoscar) :
    checkDynamicsLen r = none ∨
      checkDynamicsLen r =
        some (.WrongLength "dynamics".data r.group_counts.sum) := by
  unfold checkDynamicsLen
  cases r.dynamics with
  | none => exact Or.inl rfl
  | some d =>
    by_cases hl : d.length = r.group_counts.sum
    · exact Or.inl (by simp [hl])
    · exact Or.inr (by simp [hl])

theorem firstFailure_badScale_iff (r : RawPoscar) :
    firstFailure r = some .BadScaleLine ↔
      (checkNumGroups r = none ∧ checkComment r = none ∧
        r.scale.payload.gtZero = false) := by
  by_cases hg : r.scale.payload.gtZero = true
  · have hall : ∀ c ∈ validationChecks, ¬ c r = some .BadScaleLine := by
      intro c hc
      simp only [validationChecks, List.mem_cons, List.not_mem_nil,
        or_false] at hc
      rcases hc with rfl | rfl | rfl | rfl | rfl | rfl | rfl | rfl
      · rcases checkNumGroups_shape r with h | h <;> simp [h]
      · rcases checkComment_shape r with h | h <;> simp [h]
      · simp [checkScale, hg]
      · rcases checkAtoms_shape r with h | h <;> simp [h]
      · rcases checkSymbols_shape r with h | ⟨o, h⟩ <;> simp [h]
      · rcases checkPositionsLen_shape r with h | h <;> simp [h]
      · rcases checkVelocitiesLen_shape r with h | h <;> simp [h]
      · rcases checkDynamicsLen_shape r with h | h <;> simp [h]
    constructor
    · intro hf
      unfold firstFailure at hf
      obtain ⟨c, hc, hcr⟩ := List.exists_of_findSome?_eq_some hf
      exact absurd hcr (hall c hc)
    · rintro ⟨-, -, hgf⟩
      rw [hg] at hgf
      cases hgf
  · have hg2 : r.scale.payload.gtZero = false := by
      simpa using hg
    rcases checkNumGroups_shape r with h1 | h1
    · rcases checkComment_shape r with h2 | h2
      · simp [firstFailure, validationChecks, List.findSome?, h1, h2,
          checkScale, hg2]
      · simp [firstFailure, validationChecks, List.findSome?, h1, h2]
    · simp [firstFailure, validationChecks, List.findSome?, h1]

-- --------------------------------------------------------------------------
-- Length of the expanded symbol list.

theorem zip_flatMap_replicate_length :
    ∀ (gc : List Nat) (syms : List (List Char)), gc.length = syms.length →
      ((gc.zip syms).flatMap (fun cs => List.replicate cs.1 cs.2)).length =
        gc.sum := by
  intro gc
  induction gc with
  | nil => intro syms h; simp
  | cons c gc ih =>
    intro syms h
    match syms with
    | [] => cases h
    | s :: syms =>
      simp only [List.zip_cons_cons, List.flatMap_cons, List.length_append,
        List.length_replicate, List.sum_cons]
      rw [ih syms (by simpa using h)]

-- ==========================================================================
-- The claims.

/-- Claim C1 (amended): for every validated structure whose velocities are
absent and whose floats are exactly representable decimals, parsing the text
produced by formatting it with the default round-trip settings succeeds and
yields a structure equal to it in every field.  (The original claim also
covered velocities; the parser never populates velocities, so that part is
refuted by `C1_velocities_counterexample`.) -/
theorem C1_display_roundtrip {r : RawPoscar} {p : Poscar}
    (hval : validate r = .ok p) (hvel : r.velocities = none)
    (hrep : r.floatsRepresentable = true) :
    fromText (displayText p) = .ok p :=
  roundtrip_core hval hvel hrep

/-- Witness for C1: a concrete validated structure with symbols and dynamics
(and no velocities) that formats and reparses to itself. -/
theorem C1_display_roundtrip_witness :
    fromText (displayText ⟨c1Ok⟩) = .ok ⟨c1Ok⟩ := by
  have hval : validate c1Ok = .ok ⟨c1Ok⟩ := by decide
  have hvel : c1Ok.velocities = none := by decide
  have hrep : c1Ok.floatsRepresentable = true := by decide
  exact C1_display_roundtrip hval hvel hrep

/-- Counterexample to C1 as frozen: a validated structure **with
velocities** formats to text whose reparse fails (the parser never reads a
velocity block, so those lines are unexpected trailing content). -/
theorem C1_velocities_counterexample :
    validate c1Raw = .ok ⟨c1Raw⟩ ∧
    fromText (displayText ⟨c1Raw⟩) = .error .unexpectedTrailingContent := by
  constructor
  · decide
  · decide

/-- Claim C2 (amended): validation is a pure, repeatable gate — re-validating
the raw data of a successfully validated structure succeeds with the same
result.  (The original claim that the raw structure remains available to the
caller after a failed validation is refuted by `C2_error_counterexample`:
`validate` consumes its input by value and the error carries no copy of it.) -/
theorem C2_validate_repeatable {r : RawPoscar} {p : Poscar}
    (h : validate r = .ok p) : validate p.raw = .ok p := by
  obtain ⟨hp, -⟩ := validate_ok_inv h
  subst hp
  exact h

/-- Witness for C2: re-validating a concrete validated structure's raw data. -/
theorem C2_validate_repeatable_witness :
    validate (Poscar.raw ⟨c2Raw⟩) = .ok ⟨c2Raw⟩ := by
  have h : validate c2Raw = .ok ⟨c2Raw⟩ := by decide
  exact C2_validate_repeatable h

/-- Counterexample to C2 as frozen: two distinct raw structures fail with the
identical error value, so the error returned by `validate` retains nothing of
the consumed raw structure. -/
theorem C2_error_counterexample :
    validate c2BadA = .error .NoAtoms ∧ validate c2BadB = .error .NoAtoms ∧
    c2BadA ≠ c2BadB := by
  refine ⟨by decide, by decide, by decide⟩

/-- Claim C3 (amended): for every raw structure, validation fails with
`BadScaleLine` iff the earlier checks pass (symbols/counts length match and a
newline-free comment) and the scale payload is **not strictly greater than
zero** — which covers NaN as well as values ≤ 0.  (The original "iff the
payload is ≤ 0" is refuted by `C3_nan_counterexample`: a NaN payload is not
≤ 0 yet fails with `BadScaleLine`.) -/
theorem C3_badScaleLine_iff (r : RawPoscar) :
    validate r = .error .BadScaleLine ↔
      (checkNumGroups r = none ∧ checkComment r = none ∧
        r.scale.payload.gtZero = false) := by
  rw [validate_eq_firstFailure, ← firstFailure_badScale_iff r]
  cases hf : firstFailure r with
  | none => simp
  | some e => simp

/-- Counterexample to C3 as frozen: a NaN scale payload fails validation with
`BadScaleLine` even though it is not ≤ 0 (IEEE comparison with NaN is false). -/
theorem C3_nan_counterexample :
    validate c3Raw = .error .BadScaleLine ∧
    c3Raw.scale.payload.leZero = false := by
  refine ⟨by decide, by decide⟩

/-- Claim C4 (amended): an atom line written for a structure with dynamics
consists of the three coordinates followed by exactly **three**
single-character dynamics flags, each printed as `T` or `F`.  (The original
claim said two flags; `C4_counterexample` exhibits a line with six words.) -/
theorem C4_atomLine_flags (v : V3) (d : B3) :
    wordsContent (atomLine v (some d)) =
      [printF64 v.1, printF64 v.2.1, printF64 v.2.2,
        [logChar d.1], [logChar d.2.1], [logChar d.2.2]] ∧
    (∀ b : Bool, logChar b = 'T' ∨ logChar b = 'F') :=
  ⟨wc_atomLine_some v d, fun b => by cases b <;> simp [logChar]⟩

/-- Counterexample to C4 as frozen: a concrete atom line with dynamics holds
six words (three coordinates and three flags), not the claimed five. -/
theorem C4_counterexample :
    (wordsContent (atomLine rtV (some (true, false, true)))).length = 6 := by
  decide

/-- Claim C5: parsing the scale line — the first word is parsed as a real;
a negative value yields a `Volume` scale holding its magnitude, a positive
value a `Factor` scale, zero fails with `scaleCannotBeZero` and NaN with
`scaleCannotBeNan`; a second word that also parses as a real fails with
`tooManyScaleValues`, while a non-real second word is accepted. -/
theorem C5_scale_line (line : List Char) (rest : List (List Char))
    (w : List Char) (ws : List (List Char))
    (hw : wordsContent line = w :: ws) :
    ((∀ w2 ws2, ws = w2 :: ws2 → parseF64 w2 = none) →
      (∀ q : ℚ, parseF64 w = some (.fin q) →
        (q < 0 →
          parseScale (line :: rest) = .ok (.Volume (.fin (-q)), rest)) ∧
        (0 < q →
          parseScale (line :: rest) = .ok (.Factor (.fin q), rest)) ∧
        (q = 0 →
          parseScale (line :: rest) = .error .scaleCannotBeZero)) ∧
      (parseF64 w = some .nan →
        parseScale (line :: rest) = .error .scaleCannotBeNan)) ∧
    (∀ q : ℚ, parseF64 w = some (.fin q) → q ≠ 0 →
      ∀ w2 ws2 v2, ws = w2 :: ws2 → parseF64 w2 = some v2 →
        parseScale (line :: rest) = .error .tooManyScaleValues) := by
  constructor
  · intro hsnd
    constructor
    · intro q hq
      refine ⟨fun hlt => ?_, fun hgt => ?_, fun heq => ?_⟩
      · have hc : compare q 0 = Ordering.lt := compare_lt_iff_lt.mpr hlt
        simp only [parseScale, nextLine, except_bind_ok, hw, nextWordOr,
          parseRealWord, hq, F64.cmpZero, hc]
        cases hws : ws with
        | nil => simp [F64.neg]
        | cons w2 ws2 =>
          have h0 : parseF64 w2 = none := hsnd w2 ws2 hws
          simp [h0, F64.neg]
      · have hc : compare q 0 = Ordering.gt := compare_gt_iff_gt.mpr hgt
        simp only [parseScale, nextLine, except_bind_ok, hw, nextWordOr,
          parseRealWord, hq, F64.cmpZero, hc]
        cases hws : ws with
        | nil => simp
        | cons w2 ws2 =>
          have h0 : parseF64 w2 = none := hsnd w2 ws2 hws
          simp [h0]
      · have hc : compare q 0 = Ordering.eq := compare_eq_iff_eq.mpr heq
        simp only [parseScale, nextLine, except_bind_ok, hw, nextWordOr,
          parseRealWord, hq, F64.cmpZero, hc, except_bind_err]
    · intro hnan
      simp only [parseScale, nextLine, except_bind_ok, hw, nextWordOr,
        parseRealWord, hnan, F64.cmpZero, except_bind_err]
  · intro q hq hq0 w2 ws2 v2 hws hw2
    subst hws
    rcases lt_trichotomy q 0 with h | h | h
    · have hc : compare q 0 = Ordering.lt := compare_lt_iff_lt.mpr h
      simp only [parseScale, nextLine, except_bind_ok, hw, nextWordOr,
        parseRealWord, hq, F64.cmpZero, hc]
      simp [hw2]
    · exact absurd h hq0
    · have hc : compare q 0 = Ordering.gt := compare_gt_iff_gt.mpr h
      simp only [parseScale, nextLine, except_bind_ok, hw, nextWordOr,
        parseRealWord, hq, F64.cmpZero, hc]
      simp [hw2]

/-- Witness for C5: the concrete scale line `" -2 b"` parses as a `Volume`
scale of magnitude 2, the non-real second word being accepted as freeform
comment. -/
theorem C5_scale_line_witness :
    parseScale ([' ', '-', '2', ' ', 'b'] :: []) =
      .ok (.Volume (.fin (-(mkRat (-2) 1))), []) := by
  have h := C5_scale_line [' ', '-', '2', ' ', 'b'] [] ['-', '2'] [['b']]
    (by decide)
  have hsnd : ∀ w2 ws2, ([['b']] : List (List Char)) = w2 :: ws2 →
      parseF64 w2 = none := by
    intro w2 ws2 hws
    cases hws
    decide
  exact ((h.1 hsnd).1 (mkRat (-2) 1) (by decide)).1 (by decide)

/-- Claim C6: validation performs its eight checks in exactly the claimed
order and reports only the first failing one; with none failing it wraps the
raw structure unchanged. -/
theorem C6_validate_check_order (r : RawPoscar) :
    validate r =
      (match firstFailure r with
       | some e => Except.error e
       | none => Except.ok ⟨r⟩) :=
  validate_eq_firstFailure r

/-- Claim C7: after the counts line, a line whose first character is `s`/`S`
enables selective dynamics and is consumed; the next line's first character
decides the coordinate system — `c`/`C`/`k`/`K` give Cartesian
(`hasDirectLine _ = false`) and every other first character, a missing one
(empty line), or a leading space (such as `"  Cartesian"`) give Fractional. -/
theorem C7_selective_and_coords :
    (∀ (l l2 : List Char) (ls : List (List Char)),
      (control_char l = some 's' ∨ control_char l = some 'S') →
      parseFlags (l :: l2 :: ls) = .ok ((true, hasDirectLine l2), ls)) ∧
    (∀ (l : List Char) (ls : List (List Char)),
      control_char l ≠ some 's' → control_char l ≠ some 'S' →
      parseFlags (l :: ls) = .ok ((false, hasDirectLine l), ls)) ∧
    (∀ l : List Char,
      (control_char l = some 'c' ∨ control_char l = some 'C' ∨
        control_char l = some 'k' ∨ control_char l = some 'K') →
      hasDirectLine l = false) ∧
    (∀ (l : List Char) (c : Char), control_char l = some c →
      ¬(c = 'c' ∨ c = 'C' ∨ c = 'k' ∨ c = 'K') →
      hasDirectLine l = true) ∧
    hasDirectLine [] = true ∧
    hasDirectLine (' ' :: ' ' :: "Cartesian".data) = true := by
  refine ⟨?_, ?_, ?_, ?_, rfl, rfl⟩
  · intro l l2 ls h
    rcases h with h | h <;>
      simp [parseFlags, nextLine, h, except_bind_ok]
  · intro l ls h1 h2
    simp only [parseFlags, nextLine, except_bind_ok]
  · intro l h
    rcases h with h | h | h | h <;> simp [hasDirectLine, h]
  · intro l c hc hn
    simp only [not_or] at hn
    obtain ⟨n1, n2, n3, n4⟩ := hn
    unfold hasDirectLine
    rw [hc]
    split
    · rename_i heq
      injection heq with h2
      exact absurd h2 n1
    · rename_i heq
      injection heq with h2
      exact absurd h2 n2
    · rename_i heq
      injection heq with h2
      exact absurd h2 n3
    · rename_i heq
      injection heq with h2
      exact absurd h2 n4
    · rfl
    · rfl

/-- Claim C8 (amended): word tokenization yields exactly the maximal runs of
non-whitespace characters, in order, each with the column offset of its first
character — where the separator set of the scanner is space, tab, carriage
return and line feed.  (The original "space and tab only" is refuted by
`C8_cr_counterexample`.) -/
theorem C8_tokenize_maximal_runs (cs : List Char) : words cs = wordsSpec cs :=
  words_eq_wordsSpec cs

/-- Counterexample to C8 as frozen: the line `"a\rb"` contains no space or
tab yet tokenizes into two words — a carriage return also splits words. -/
theorem C8_cr_counterexample :
    words ['a', '\r', 'b'] = [(0, ['a']), (2, ['b'])] ∧
    ['a', '\r', 'b'].filter
      (fun c => decide (c = ' ') || decide (c = '\t')) = [] := by
  refine ⟨by decide, by decide⟩

/-- Claim C9: for every validated structure, `num_sites` equals the sum of
`group_counts`, and when symbols are present `site_symbols` yields exactly
`num_sites` symbols. -/
theorem C9_num_sites_sum {r : RawPoscar} {p : Poscar}
    (h : validate r = .ok p) :
    p.num_sites = p.raw.group_counts.sum ∧
    (∀ syms, p.raw.group_symbols = some syms →
      ∃ l, p.site_symbols = some l ∧ l.length = p.num_sites) := by
  obtain ⟨hp, hff⟩ := validate_ok_inv h
  subst hp
  have hch := firstFailure_none_checks hff
  have hpl := checkPositionsLen_none
    (hch checkPositionsLen (by simp [validationChecks]))
  constructor
  · exact hpl
  · intro syms hsym
    have hlen := checkNumGroups_none hsym
      (hch checkNumGroups (by simp [validationChecks]))
    refine ⟨(r.group_counts.zip syms).flatMap
      (fun cs => List.replicate cs.1 cs.2), ?_, ?_⟩
    · have hsym2 : r.group_symbols = some syms := hsym
      simp [Poscar.site_symbols, hsym2]
    · rw [zip_flatMap_replicate_length r.group_counts syms hlen]
      exact hpl.symm

/-- Witness for C9: the concrete validated structure with two groups of one
atom each. -/
theorem C9_num_sites_sum_witness :
    (Poscar.mk c1Ok).num_sites = (Poscar.mk c1Ok).raw.group_counts.sum ∧
    (∀ syms, (Poscar.mk c1Ok).raw.group_symbols = some syms →
      ∃ l, (Poscar.mk c1Ok).site_symbols = some l ∧
        l.length = (Poscar.mk c1Ok).num_sites) := by
  have h : validate c1Ok = .ok ⟨c1Ok⟩ := by decide
  exact C9_num_sites_sum h

/-- Claim C10: a structure produced by successful validation satisfies the
writer's assertions — the comment holds no line break and `group_counts` is
non-empty — so formatting it never aborts on those assertions. -/
theorem C10_display_asserts {r : RawPoscar} {p : Poscar}
    (h : validate r = .ok p) : displayAsserts p = true := by
  obtain ⟨hp, hff⟩ := validate_ok_inv h
  subst hp
  have hch := firstFailure_none_checks hff
  have hcom := checkComment_none (hch checkComment (by simp [validationChecks]))
  have hat := checkAtoms_none (hch checkAtoms (by simp [validationChecks]))
  unfold displayAsserts
  rw [hcom.1, hcom.2]
  have hne : r.group_counts.isEmpty = false := by
    cases hgc : r.group_counts with
    | nil => rw [hgc] at hat; simp at hat
    | cons a l => rfl
  rw [hne]
  rfl

/-- Witness for C10: the writer's assertions hold of a concrete validated
structure. -/
theorem C10_display_asserts_witness : displayAsserts ⟨c2Raw⟩ = true := by
  have h : validate c2Raw = .ok ⟨c2Raw⟩ := by decide
  exact C10_display_asserts h

end VaspPoscar
